import Mathlib

/-! guildroster: shutdown orchestration and request routing.

A shallow embedding of `main.go` of `chronos-tachyon/guildroster`.

* Part A: the request router (`mux`, `muxApi`, `muxApiGuild` and the handlers).
* Part B: the liveness probe `checkDatabase` and the flag `gHealthyDatabase`.
* Part C: the two cancellation contexts built by `init`.
* Part D: the goroutines of the program as a labelled transition system
  (every interleaving is a list of labels).
* Part E: the timed behaviour of `signalThread` and of the exit ladder of `main`.
-/

namespace GuildRoster

/-! ## Part A: strings and the router -/

/-- A byte of a Go string. -/
abbrev Byte := Fin 256

/-- A Go string is a sequence of bytes; indexing and slicing count bytes. -/
abbrev GoString := List Byte

/-- The bytes of an ASCII string literal of the source. -/
def lit (s : String) : GoString := s.toList.map (fun c => Fin.ofNat c.toNat)

/-- Run-time panics of the Go program that the model tracks. -/
inductive Panic
  | sliceBounds
  | nilDereference
  | closeOfClosedChannel
  | negativeWaitGroupCounter
  deriving DecidableEq, Repr

deriving instance DecidableEq for Except

/-- Go `strings.HasPrefix(s, pre)`. -/
def hasPrefix (s pre : GoString) : Bool := pre.isPrefixOf s

/-- Go `s[i:]`: panics unless `0 <= i <= len(s)`. -/
def sliceFrom (s : GoString) (i : Int) : Except Panic GoString :=
  if 0 ≤ i ∧ i ≤ (s.length : Int) then .ok (s.drop i.toNat) else .error .sliceBounds

/-- Go `s[:j]`: panics unless `0 <= j <= len(s)`. -/
def sliceTo (s : GoString) (j : Int) : Except Panic GoString :=
  if 0 ≤ j ∧ j ≤ (s.length : Int) then .ok (s.take j.toNat) else .error .sliceBounds

/-- Go `strings.IndexByte(s, c)`: index of the first `c` in `s`, or `-1`. -/
def indexByte : GoString → Byte → Int
  | [], _ => -1
  | b :: rest, c =>
    if b = c then 0
    else
      let r := indexByte rest c
      if r < 0 then -1 else r + 1

/-- `http.StatusNotFound`. -/
def statusNotFound : Nat := 404

/-- `http.StatusNotImplemented`. -/
def statusNotImplemented : Nat := 501

/-- What a handler wrote: the status code of the response. -/
abbrev Response := Nat

/-- `muxApiGuild`: `http.NotFound(w, r)`. -/
def muxApiGuild (_apiVersion : Nat) (_guildID : GoString) (_requestPath : GoString) : Response :=
  statusNotFound

/-- `handleGuild`: `http.NotFound(w, r)`. -/
def handleGuild (_apiVersion : Nat) (_guildID : GoString) : Response :=
  statusNotFound

/-- `handleGuilds`: `http.Error(w, "not implemented", http.StatusNotImplemented)`. -/
def handleGuilds (_apiVersion : Nat) : Response := statusNotImplemented

/-- `handleApiPlayers`: `http.Error(w, "not implemented", http.StatusNotImplemented)`. -/
def handleApiPlayers (_apiVersion : Nat) : Response := statusNotImplemented

/-- `handleApiToons`: `http.Error(w, "not implemented", http.StatusNotImplemented)`. -/
def handleApiToons (_apiVersion : Nat) : Response := statusNotImplemented

/-- `muxApi`: the `switch` of lines 135-154, cases tried in source order. -/
def muxApi (apiVersion : Nat) (requestPath : GoString) : Except Panic Response :=
  if requestPath = lit "/guilds" then .ok (handleGuilds apiVersion)
  else if requestPath = lit "/players" then .ok (handleApiPlayers apiVersion)
  else if requestPath = lit "/toons" then .ok (handleApiToons apiVersion)
  else if hasPrefix requestPath (lit "/guilds/") then do
    let guildID ← sliceFrom requestPath 8
    let index := indexByte guildID (Fin.ofNat '/'.toNat)
    if index < 0 then
      pure (handleGuild apiVersion guildID)
    else do
      let rest ← sliceFrom guildID index
      let guildID ← sliceTo guildID index
      pure (muxApiGuild apiVersion guildID rest)
  else .ok statusNotFound

/-- `mux`: `clean` stands for `path.Clean` of the standard library and `urlPath` for
`r.URL.Path`. -/
def mux (clean : GoString → GoString) (urlPath : GoString) : Except Panic Response :=
  let requestPath := clean urlPath
  if hasPrefix requestPath (lit "/v1/") then do
    let rest ← sliceFrom requestPath 3
    muxApi 1 rest
  else .ok statusNotFound

/-- The three paths that have a handler answering 501. -/
def implementedPaths : List GoString :=
  [lit "/v1/guilds", lit "/v1/players", lit "/v1/toons"]

/-! ## Part B: the liveness probe -/

/-- Line 41: `gHealthyDatabase uintptr = 0`, the value of the flag before any write. -/
def gHealthyDatabaseInit : Nat := 0

/-- `checkDatabase` (lines 244-251): `pingErr` is what `gDatabase.PingContext(gHardContext)`
returned (`none` for a nil error); the result is the value stored into `gHealthyDatabase`.
The previous value of the flag is not read. -/
def checkDatabase {ε : Type} (pingErr : Option ε) (_gHealthyDatabase : Nat) : Nat :=
  let value : Nat := 1
  let value := if pingErr.isSome then 0 else value
  value

/-- The flag after the ticks of `pingThread` whose probes returned `outcomes`, in order. -/
def afterTicks {ε : Type} (outcomes : List (Option ε)) (gHealthyDatabase : Nat) : Nat :=
  outcomes.foldl (fun flag o => checkDatabase o flag) gHealthyDatabase

/-! ## Part C: the cancellation contexts -/

/-- A cancellable context of package `context`: whether its `Done` channel is closed, its
parent (`none` for `context.Background()`), and the children registered for propagation. -/
structure CancelCtx where
  done : Bool
  parent : Option Nat
  children : List Nat
  deriving DecidableEq, Repr

/-- All cancellable contexts created so far; a context is named by its index. -/
abbrev CtxStore := List CancelCtx

/-- Replace the children of context `id`. -/
def setChildren (st : CtxStore) (id : Nat) (cs : List Nat) : CtxStore :=
  match st[id]? with
  | none => st
  | some c => st.set id { c with children := cs }

/-- `context.WithCancel(parent)`: a new context; when the parent is already done the child is
cancelled at once, otherwise it is registered with the parent. A `none` parent is
`context.Background()`, which is never cancelled. -/
def withCancel (st : CtxStore) (parent : Option Nat) : CtxStore × Nat :=
  let id := st.length
  match parent with
  | none => (st ++ [⟨false, none, []⟩], id)
  | some p =>
    match st[p]? with
    | none => (st ++ [⟨false, some p, []⟩], id)
    | some pc =>
      if pc.done then (st ++ [⟨true, some p, []⟩], id)
      else (setChildren st p (pc.children ++ [id]) ++ [⟨false, some p, []⟩], id)

/-- Remove `id` from the children of its parent. -/
def removeChild (st : CtxStore) (parent : Option Nat) (id : Nat) : CtxStore :=
  match parent with
  | none => st
  | some p =>
    match st[p]? with
    | none => st
    | some pc => setChildren st p (pc.children.filter (fun c => c != id))

/-- The `cancel` method of a cancellable context: a no-op when already cancelled; otherwise
closes `Done`, cancels every registered child (without detaching it), forgets the children and,
when asked, detaches the context from its parent. `fuel` bounds the depth of the tree. -/
def cancelCtx : Nat → CtxStore → Bool → Nat → CtxStore
  | 0, st, _, _ => st
  | fuel + 1, st, removeFromParent, id =>
    match st[id]? with
    | none => st
    | some c =>
      if c.done then st
      else
        let st1 := st.set id { c with done := true }
        let st2 := c.children.foldl (fun acc ch => cancelCtx fuel acc false ch) st1
        let st3 := setChildren st2 id []
        if removeFromParent then removeChild st3 c.parent id else st3

/-- The `CancelFunc` returned by `WithCancel` for context `id`. -/
def cancelFunc (st : CtxStore) (id : Nat) : CtxStore :=
  cancelCtx st.length st true id

/-- The globals `gHardContext` and `gContext` with the store they live in. -/
structure Contexts where
  store : CtxStore
  gHardContext : Nat
  gContext : Nat
  deriving DecidableEq, Repr

/-- Lines 45-46 of `init`. -/
def initContexts : Contexts :=
  let (st1, hard) := withCancel [] none
  let (st2, soft) := withCancel st1 (some hard)
  { store := st2, gHardContext := hard, gContext := soft }

/-- `gHardCancel()`. -/
def gHardCancel (c : Contexts) : Contexts :=
  { c with store := cancelFunc c.store c.gHardContext }

/-- `gCancel()`. -/
def gCancel (c : Contexts) : Contexts :=
  { c with store := cancelFunc c.store c.gContext }

/-- Whether `<-ctx.Done()` is ready for context `id`. -/
def isDone (c : Contexts) (id : Nat) : Bool :=
  match c.store[id]? with
  | none => false
  | some x => x.done

/-- Whether `gHardContext` reports done. -/
def hardDone (c : Contexts) : Bool := isDone c c.gHardContext

/-- Whether `gContext` reports done. -/
def softDone (c : Contexts) : Bool := isDone c c.gContext

/-- A call of one of the two cancel functions. -/
inductive CancelCall
  | soft
  | hard
  deriving DecidableEq, Repr

/-- The effect of one call. -/
def CancelCall.apply : CancelCall → Contexts → Contexts
  | .soft, c => gCancel c
  | .hard, c => gHardCancel c

/-- The contexts after `init` and then the given calls, in order. -/
def afterCalls (calls : List CancelCall) : Contexts :=
  calls.foldl (fun c call => call.apply c) initContexts

/-! ## Part D: the goroutines as a labelled transition system

The program has four goroutines: `main`, the goroutine started by `init` (it waits on `gWait`
and closes `gWaitDone`), `signalThread` and `pingThread`. A state records where each of them
stands (by source line) and the shared variables; a label names the goroutine that executes its
next statement, together with the choice that statement leaves open (the result of an external
call, the case taken by a `select`), or an event of the surroundings (a signal is delivered, a
timer expires). Timers may expire at any moment after they are armed, so every timed schedule is
one of the interleavings. The return of `main`, `log.Fatal`, a panic and a signal without a
handler end the process at once (the deferred calls that a panicking goroutine still runs are not
modelled). `flag.Parse`, `defer gDatabase.Close()` and the HTTP handlers play no part in the
coordination and are left out. -/

/-- How the process ended. -/
inductive Halt
  | returned
  | fatal (line : Nat)
  | panicked (p : Panic)
  | killedBySignal
  deriving DecidableEq, Repr

/-- The lines written with package `log`. -/
inductive LogMsg
  | exit
  | forceExit
  | receivedSignal
  | timedOut
  | pingDatabase
  deriving DecidableEq, Repr

/-- A `time.Timer` or `time.Ticker`: not created, running, a value waiting in its channel,
or received/stopped. -/
inductive Timer
  | unset
  | armed
  | fired
  | spent
  deriving DecidableEq, Repr

/-- The `http.Server` behind `gServer`: whether `Shutdown` has been called on it. -/
structure Server where
  inShutdown : Bool
  deriving DecidableEq, Repr

/-- Where `main` stands: the source line of its next statement. -/
inductive MainPc
  | l58 | l59 | l62 | l68 | l72 | l73 | l74 | l76 | l83 | l88 | l89 | l90 | l92 | l93
  | l98 | l99 | l100 | l101 | done
  deriving DecidableEq, Repr

/-- Where the goroutine of `init` stands: about to call `gWait.Wait()`, blocked inside it,
about to `close(gWaitDone)`, or finished. -/
inductive WatcherPc
  | l50 | blocked | l51 | done
  deriving DecidableEq, Repr

/-- Where `signalThread` stands. `loop1` and `loop2` are the two `select` statements,
`draining` is inside `gServer.Shutdown`, `deferStop`, `deferClose`, `deferDone` are the deferred
calls `t.Stop()`, `signal.Stop(ch); close(ch)` and `gWait.Done()`. -/
inductive SigPc
  | notStarted | l180 | l181 | loop1 | l197 | l112 | l113 | draining | l203 | loop2
  | l215 | l216 | l218 | l219 | deferStop | deferClose | deferDone | done
  deriving DecidableEq, Repr

/-- Where `pingThread` stands. -/
inductive PingPc
  | notStarted | l227 | loop | l239 | deferStop | deferDone | done
  deriving DecidableEq, Repr

/-- The state of the whole program. -/
structure State where
  halted : Option Halt
  ctx : Contexts
  cancelCalled : Bool
  hardCancelCalled : Bool
  gExitingClosed : Bool
  gWaitDoneCloses : Nat
  counter : Int
  adds : Nat
  dones : Nat
  spawned : Nat
  gDatabase : Bool
  gServer : Option Server
  gHealthyDatabase : Nat
  mainPc : MainPc
  mainTimer : Timer
  watcherPc : WatcherPc
  sigPc : SigPc
  notify : Bool
  ch : Nat
  graceTimer : Timer
  pingPc : PingPc
  ticker : Timer
  log : List LogMsg
  deriving DecidableEq, Repr

/-- The state when `main` starts: `init` has run, its goroutine has been started. -/
def State.init : State :=
  { halted := none
    ctx := initContexts
    cancelCalled := false
    hardCancelCalled := false
    gExitingClosed := false
    gWaitDoneCloses := 0
    counter := 0
    adds := 0
    dones := 0
    spawned := 0
    gDatabase := false
    gServer := none
    gHealthyDatabase := gHealthyDatabaseInit
    mainPc := .l58
    mainTimer := .unset
    watcherPc := .l50
    sigPc := .notStarted
    notify := false
    ch := 0
    graceTimer := .unset
    pingPc := .notStarted
    ticker := .unset
    log := [] }

/-- `gWait.Add(1)`. -/
def wgAdd (s : State) : State :=
  { s with counter := s.counter + 1, adds := s.adds + 1 }

/-- `gWait.Done()`: a negative counter panics; reaching zero releases a blocked `Wait`. -/
def wgDone (s : State) : State :=
  let c := s.counter - 1
  if c < 0 then
    { s with counter := c, dones := s.dones + 1,
             halted := some (.panicked .negativeWaitGroupCounter) }
  else if c = 0 ∧ s.watcherPc = .blocked then
    { s with counter := c, dones := s.dones + 1, watcherPc := .l51 }
  else
    { s with counter := c, dones := s.dones + 1 }

/-- The process-wide `gCancel()`. -/
def callCancel (s : State) : State :=
  { s with ctx := gCancel s.ctx, cancelCalled := true }

/-- The process-wide `gHardCancel()`. -/
def callHardCancel (s : State) : State :=
  { s with ctx := gHardCancel s.ctx, hardCancelCalled := true }

/-- What `main` does next: `step` for a statement without a choice, `ok`/`err` for the result
of `sql.Open`, `PingContext` and `ListenAndServe` (`ok` is `http.ErrServerClosed` there),
`waitDone`/`timer` for the case taken by a `select`. -/
inductive MainLabel
  | step | ok | err | waitDone | timer
  deriving DecidableEq, Repr

/-- What `signalThread` does next: `step`, the `select` case taken, or how `Shutdown` returns
(`drained`: the listener is idle; `hardDone`: its context is done). -/
inductive SigLabel
  | step | exiting | ctxDone | recv | drained | hardDone | timer
  deriving DecidableEq, Repr

/-- What `pingThread` does next; `probe e` is `checkDatabase` whose ping returned an error
iff `e`. -/
inductive PingLabel
  | step | exiting | hardDone | tick | probe (e : Bool)
  deriving DecidableEq, Repr

/-- One step of the program or of its surroundings. -/
inductive Label
  | main (l : MainLabel)
  | watcher
  | sig (l : SigLabel)
  | ping (l : PingLabel)
  | osSignal
  | fireMainTimer
  | fireGraceTimer
  | fireTicker
  deriving DecidableEq, Repr

/-- The statements of `main` (lines 58-108). -/
def mainStep (l : MainLabel) (s : State) : Option State :=
  match s.mainPc, l with
  | .l58, .step => some { wgAdd s with mainPc := .l59 }
  | .l59, .step => some { s with sigPc := .l180, spawned := s.spawned + 1, mainPc := .l62 }
  | .l62, .ok => some { s with gDatabase := true, mainPc := .l68 }
  | .l62, .err => some { s with halted := some (.fatal 64) }
  | .l68, .ok => if hardDone s.ctx then none else some { s with mainPc := .l72 }
  | .l68, .err => some { s with halted := some (.fatal 70) }
  | .l72, .step => some { s with gHealthyDatabase := 1, mainPc := .l73 }
  | .l73, .step => some { wgAdd s with mainPc := .l74 }
  | .l74, .step => some { s with pingPc := .l227, spawned := s.spawned + 1, mainPc := .l76 }
  | .l76, .step => some { s with gServer := some ⟨false⟩, mainPc := .l83 }
  | .l83, .ok =>
    match s.gServer with
    | some srv => if srv.inShutdown then some { s with mainPc := .l88 } else none
    | none => none
  | .l83, .err =>
    match s.gServer with
    | some srv => if srv.inShutdown then none else some { s with halted := some (.fatal 85) }
    | none => none
  | .l88, .step => some { callCancel s with mainPc := .l89 }
  | .l89, .step =>
    if s.gExitingClosed then some { s with halted := some (.panicked .closeOfClosedChannel) }
    else some { s with gExitingClosed := true, mainPc := .l90 }
  | .l90, .step => some { s with log := s.log ++ [.exit], mainPc := .l92 }
  | .l92, .step => some { s with mainTimer := .armed, mainPc := .l93 }
  | .l93, .waitDone =>
    if 0 < s.gWaitDoneCloses then some { s with halted := some .returned, mainPc := .done }
    else none
  | .l93, .timer =>
    if s.mainTimer = .fired then some { s with mainTimer := .spent, mainPc := .l98 } else none
  | .l98, .step => some { s with log := s.log ++ [.forceExit], mainPc := .l99 }
  | .l99, .step => some { callHardCancel s with mainPc := .l100 }
  | .l100, .step => some { s with mainTimer := .armed, mainPc := .l101 }
  | .l101, .waitDone =>
    if 0 < s.gWaitDoneCloses then some { s with halted := some .returned, mainPc := .done }
    else none
  | .l101, .timer =>
    if s.mainTimer = .fired then
      some { s with mainTimer := .spent, halted := some .returned, mainPc := .done }
    else none
  | _, _ => none

/-- The goroutine of `init` (lines 49-52). -/
def watcherStep (s : State) : Option State :=
  match s.watcherPc with
  | .l50 => if s.counter = 0 then some { s with watcherPc := .l51 }
            else some { s with watcherPc := .blocked }
  | .blocked => none
  | .l51 =>
    if 0 < s.gWaitDoneCloses then
      some { s with gWaitDoneCloses := s.gWaitDoneCloses + 1,
                    halted := some (.panicked .closeOfClosedChannel) }
    else some { s with gWaitDoneCloses := s.gWaitDoneCloses + 1, watcherPc := .done }
  | .done => none

/-- The statements of `signalThread` (lines 177-222) with `shutdown` (lines 111-114) inlined
at its only call site. Calling `Shutdown` through a nil `gServer` dereferences it. -/
def sigStep (l : SigLabel) (s : State) : Option State :=
  match s.sigPc, l with
  | .l180, .step => some { s with ch := 0, sigPc := .l181 }
  | .l181, .step => some { s with notify := true, sigPc := .loop1 }
  | .loop1, .exiting => if s.gExitingClosed then some { s with sigPc := .deferClose } else none
  | .loop1, .ctxDone => if softDone s.ctx then some { s with sigPc := .l203 } else none
  | .loop1, .recv => if 0 < s.ch then some { s with ch := s.ch - 1, sigPc := .l197 } else none
  | .l197, .step => some { s with log := s.log ++ [.receivedSignal], sigPc := .l112 }
  | .l112, .step => some { callCancel s with sigPc := .l113 }
  | .l113, .step =>
    match s.gServer with
    | none => some { s with halted := some (.panicked .nilDereference) }
    | some _ => some { s with gServer := some ⟨true⟩, sigPc := .draining }
  | .draining, .drained => some { s with sigPc := .l203 }
  | .draining, .hardDone => if hardDone s.ctx then some { s with sigPc := .l203 } else none
  | .l203, .step => some { s with graceTimer := .armed, sigPc := .loop2 }
  | .loop2, .exiting => if s.gExitingClosed then some { s with sigPc := .deferStop } else none
  | .loop2, .hardDone => if hardDone s.ctx then some { s with sigPc := .deferStop } else none
  | .loop2, .recv => if 0 < s.ch then some { s with ch := s.ch - 1, sigPc := .l215 } else none
  | .loop2, .timer =>
    if s.graceTimer = .fired then some { s with graceTimer := .spent, sigPc := .l218 } else none
  | .l215, .step => some { s with log := s.log ++ [.receivedSignal], sigPc := .l216 }
  | .l216, .step => some { callHardCancel s with sigPc := .loop2 }
  | .l218, .step => some { s with log := s.log ++ [.timedOut], sigPc := .l219 }
  | .l219, .step => some { callHardCancel s with sigPc := .loop2 }
  | .deferStop, .step => some { s with graceTimer := .spent, sigPc := .deferClose }
  | .deferClose, .step => some { s with notify := false, sigPc := .deferDone }
  | .deferDone, .step => some { wgDone s with sigPc := .done }
  | _, _ => none

/-- The statements of `pingThread` (lines 224-242). A ping on a done context fails. -/
def pingStep (l : PingLabel) (s : State) : Option State :=
  match s.pingPc, l with
  | .l227, .step => some { s with ticker := .armed, pingPc := .loop }
  | .loop, .exiting => if s.gExitingClosed then some { s with pingPc := .deferStop } else none
  | .loop, .hardDone => if hardDone s.ctx then some { s with pingPc := .deferStop } else none
  | .loop, .tick =>
    if s.ticker = .fired then some { s with ticker := .armed, pingPc := .l239 } else none
  | .l239, .probe e =>
    if hardDone s.ctx ∧ e = false then none
    else
      some { s with log := s.log ++ [.pingDatabase],
                    gHealthyDatabase :=
                      checkDatabase (if e then some () else none) s.gHealthyDatabase,
                    pingPc := .loop }
  | .deferStop, .step => some { s with ticker := .spent, pingPc := .deferDone }
  | .deferDone, .step => some { wgDone s with pingPc := .done }
  | _, _ => none

/-- A termination signal (SIGINT or SIGTERM) reaches the process: with `signal.Notify` in
force it is put into `ch` when there is room (capacity 1) and dropped otherwise; without it the
default action ends the process. -/
def osSignalStep (s : State) : Option State :=
  if s.notify then
    if s.ch < 1 then some { s with ch := s.ch + 1 } else some s
  else some { s with halted := some .killedBySignal }

/-- A running timer expires. -/
def fire (t : Timer) : Option Timer :=
  match t with
  | .armed => some .fired
  | _ => none

/-- One step; `none` when the label is not enabled. A halted process takes no step. -/
def step (l : Label) (s : State) : Option State :=
  if s.halted.isSome then none
  else
    match l with
    | .main m => mainStep m s
    | .watcher => watcherStep s
    | .sig m => sigStep m s
    | .ping m => pingStep m s
    | .osSignal => osSignalStep s
    | .fireMainTimer => (fire s.mainTimer).map (fun t => { s with mainTimer := t })
    | .fireGraceTimer => (fire s.graceTimer).map (fun t => { s with graceTimer := t })
    | .fireTicker => (fire s.ticker).map (fun t => { s with ticker := t })

/-- The state after an interleaving, when every label of it is enabled in turn. -/
def run : List Label → State → Option State
  | [], s => some s
  | l :: ls, s =>
    match step l s with
    | none => none
    | some s1 => run ls s1

/-- The states the program can be in. -/
def Reachable (s : State) : Prop := ∃ ls, run ls State.init = some s

/-- The contexts as a function of which of the two cancel functions have been called. -/
def ctxAfter (soft hard : Bool) : Contexts :=
  if hard then gHardCancel initContexts
  else if soft then gCancel initContexts else initContexts

/-- Whether `main` has executed line 88. -/
def MainPc.pastCancel : MainPc → Bool
  | .l89 | .l90 | .l92 | .l93 | .l98 | .l99 | .l100 | .l101 | .done => true
  | _ => false

/-- How many `gWait.Add(1)` `main` has executed when it stands at the given line. -/
def MainPc.addsAt : MainPc → Nat
  | .l58 => 0
  | .l59 | .l62 | .l68 | .l72 | .l73 => 1
  | _ => 2

/-- How many `go` statements `main` has executed when it stands at the given line. -/
def MainPc.spawnedAt : MainPc → Nat
  | .l58 | .l59 => 0
  | .l62 | .l68 | .l72 | .l73 | .l74 => 1
  | _ => 2

/-- Whether `signalThread` stands between the `gCancel` of `shutdown` or the soft-context case
of its first `select`, and the end of its second loop. -/
def SigPc.pastCancel : SigPc → Bool
  | .l113 | .draining | .l203 | .loop2 | .l215 | .l216 | .l218 | .l219 => true
  | _ => false

/-- Whether `signalThread` stands in its first loop. -/
def SigPc.running : SigPc → Bool
  | .loop1 => true
  | _ => false

/-- The invariant of the transition system used by the theorems of part D. -/
structure Inv (s : State) : Prop where
  ctx_eq : s.ctx = ctxAfter s.cancelCalled s.hardCancelCalled
  hard_soft : s.hardCancelCalled = true → s.cancelCalled = true
  main_past : s.mainPc.pastCancel = true → s.cancelCalled = true
  sig_past : s.sigPc.pastCancel = true → s.cancelCalled = true
  adds_eq : s.adds = s.mainPc.addsAt
  spawned_eq : s.spawned = s.mainPc.spawnedAt
  fatal_listen : s.halted = some (.fatal 85) → s.mainPc = .l83
  closes_eq : s.gWaitDoneCloses = (if s.watcherPc = .done then 1 else 0)

/-- The interleaving in which the goroutine of `init` runs before `main` registers a worker. -/
def earlyWatcherTrace : List Label := [.watcher, .watcher]

/-- The interleaving in which a signal arrives while `main` is still opening the database:
`main` registers and starts `signalThread` (lines 58-59), `signalThread` installs its handler
(lines 180-181), the signal arrives and is received (line 196), logged (line 197), and
`shutdown` runs `gCancel()` (line 112) and `gServer.Shutdown` (line 113). -/
def earlySignalTrace : List Label :=
  [.main .step, .main .step, .sig .step, .sig .step, .osSignal, .sig .recv, .sig .step,
   .sig .step, .sig .step]

/-- The interleaving in which everything up to line 83 succeeds and `ListenAndServe` then
returns an error other than `http.ErrServerClosed`. -/
def listenFailureTrace : List Label :=
  [.main .step, .main .step, .main .ok, .main .ok, .main .step, .main .step, .main .step,
   .main .step, .main .err]

/-- The interleaving in which the program starts, a first signal makes `signalThread` run
`shutdown`, the listener drains, and a second signal makes it call `gHardCancel`. -/
def escalationTrace : List Label :=
  [.main .step, .main .step, .main .ok, .main .ok, .main .step, .main .step, .main .step,
   .main .step, .sig .step, .sig .step, .osSignal, .sig .recv, .sig .step, .sig .step,
   .sig .step, .sig .drained, .sig .step, .osSignal, .sig .recv, .sig .step, .sig .step]

/-- The interleaving in which the program starts, a signal makes `signalThread` run `shutdown`,
the listener drains, the grace timer expires and `signalThread` calls `gHardCancel`, all while
`main` has not yet come back from `ListenAndServe`. -/
def graceExpiryTrace : List Label :=
  [.main .step, .main .step, .main .ok, .main .ok, .main .step, .main .step, .main .step,
   .main .step, .sig .step, .sig .step, .osSignal, .sig .recv, .sig .step, .sig .step,
   .sig .step, .sig .drained, .sig .step, .fireGraceTimer, .sig .timer, .sig .step, .sig .step]

/-- The interleaving in which a first signal makes `signalThread` run `shutdown`,
`ListenAndServe` returns and `main` runs lines 88-89, the listener drains, `signalThread` leaves
its second loop by the `gExiting` case and runs its deferred `signal.Stop`, and then a second
signal arrives. -/
def lateSignalTrace : List Label :=
  [.main .step, .main .step, .main .ok, .main .ok, .main .step, .main .step, .main .step,
   .main .step, .sig .step, .sig .step, .osSignal, .sig .recv, .sig .step, .sig .step,
   .sig .step, .main .ok, .main .step, .main .step, .sig .drained, .sig .step, .sig .exiting,
   .sig .step, .sig .step, .osSignal]

/-- The state at the end of an interleaving (the initial state when it cannot be run). -/
def stateAfter (ls : List Label) : State := (run ls State.init).getD State.init

/-! ## Part E: timed behaviour

Time is counted in milliseconds. Statements take no time; a goroutine waits only in a `select`
and inside `Shutdown`. A `select` entered at time `now` wakes at the first moment at which one of
its cases can proceed and takes any one of the cases that can proceed at that moment, so a
function of this part returns the list of all its possible runs. -/

/-- When a channel operation becomes possible: from some moment on (a number of milliseconds),
or never. -/
abbrev Ready := Option Nat

/-- The earliest of several moments. -/
def earliest : List Ready → Ready
  | [] => none
  | none :: rs => earliest rs
  | some t :: rs =>
    match earliest rs with
    | none => some t
    | some u => some (min t u)

/-- When a `select` entered at `now` wakes up (`none`: it blocks for ever). -/
def wakeAt (now : Nat) (cases : List Ready) : Ready :=
  (earliest cases).map (max now)

/-- Whether a channel operation is possible at moment `t`. -/
def isReadyAt (t : Nat) : Ready → Bool
  | none => false
  | some u => decide (u ≤ t)

/-- The positions, counted from `i`, of the cases that can proceed at moment `t`. -/
def readyIdx (t : Nat) : Nat → List Ready → List Nat
  | _, [] => []
  | i, r :: rs => if isReadyAt t r then i :: readyIdx t (i + 1) rs else readyIdx t (i + 1) rs

/-- The ways a `select` entered at `now` can go: the wake-up time with the position of the case
taken. The empty list means that it blocks for ever. -/
def selectAt (now : Nat) (cases : List Ready) : List (Nat × Nat) :=
  match wakeAt now cases with
  | none => []
  | some t => (readyIdx t 0 cases).map (fun i => (t, i))

/-- A `select` inside a goroutine: `blocked` is the run in which it never wakes, `k t i` are the
runs that continue with case `i` at moment `t`. -/
def goSelect {α : Type} (now : Nat) (cases : List Ready) (blocked : α)
    (k : Nat → Nat → List α) : List α :=
  match selectAt now cases with
  | [] => [blocked]
  | r :: rs => (r :: rs).flatMap (fun p => k p.1 p.2)

/-- The grace period of `signalThread` (line 203), in milliseconds. -/
def graceMs : Nat := 5000

/-- The first budget of `main` (line 92), in milliseconds. -/
def firstBudgetMs : Nat := 6000

/-- The final budget of `main` (line 100), in milliseconds. -/
def finalBudgetMs : Nat := 3000

/-- What `main` did from line 88 on, with the moment of each event. -/
structure MainRun where
  cancelAt : Option Nat := none
  exitingAt : Option Nat := none
  forceLogAt : Option Nat := none
  hardCancelAt : Option Nat := none
  returnAt : Option Nat := none
  deriving DecidableEq, Repr

/-- Lines 88-108 of `main`, entered at moment `s` (the return of `ListenAndServe`);
`waitDoneAt` is the moment at which `gWaitDone` is closed. -/
def mainExit (s : Nat) (waitDoneAt : Ready) : List MainRun :=
  let r0 : MainRun := { cancelAt := some s, exitingAt := some s }
  goSelect s [waitDoneAt, some (s + firstBudgetMs)] r0 fun t i =>
    match i with
    | 0 => [{ r0 with returnAt := some t }]
    | _ =>
      let r1 : MainRun := { r0 with forceLogAt := some t, hardCancelAt := some t }
      goSelect t [waitDoneAt, some (t + finalBudgetMs)] r1 fun t2 _ =>
        [{ r1 with returnAt := some t2 }]

/-- What surrounds `signalThread`: when `main` closes `gExiting`, calls `gCancel` (line 88),
calls `gHardCancel` (line 99) and assigns `gServer` (line 76); when termination signals arrive
(in ascending order); and `drain`, how long a call of `Shutdown` lasts when `gHardContext` is not
cancelled first (the time the listener takes to close and become idle). -/
structure World where
  exitingAt : Ready
  softAt : Ready
  hardAt : Ready
  serverAt : Ready
  signals : List Nat
  drain : Nat
  deriving DecidableEq, Repr

/-- What `signalThread` did, with the moment of each event: `gCancel` inside `shutdown`, the
return of `shutdown`, the start of the grace timer, its first `gHardCancel`, its return, a panic.
`outOfFuel` marks a run cut short by the bound on the iterations of the second loop. -/
structure SigRun where
  softCancelAt : Option Nat := none
  shutdownReturnAt : Option Nat := none
  graceStartAt : Option Nat := none
  hardCancelAt : Option Nat := none
  returnAt : Option Nat := none
  panicAt : Option Nat := none
  outOfFuel : Bool := false
  deriving DecidableEq, Repr

/-- Record a call of `gHardCancel` at moment `t`; only the first call has an effect. -/
def SigRun.hardCancel (r : SigRun) (t : Nat) : SigRun :=
  match r.hardCancelAt with
  | none => { r with hardCancelAt := some t }
  | some _ => r

/-- The signals still to come after one was received from `ch` at moment `t`: `ch` holds one
signal, so those that arrived while it was full were dropped. -/
def remainingSignals (sigs : List Nat) (t : Nat) : List Nat :=
  sigs.tail.filter (fun a => decide (t < a))

/-- The second loop of `signalThread` (lines 206-221), entered at `now` with the grace timer
`timer` (`none` once its value has been received) and the signals `sigs` not yet received. -/
def sigLoop2 (w : World) : Nat → Nat → Ready → List Nat → SigRun → List SigRun
  | 0, _, _, _, r => [{ r with outOfFuel := true }]
  | fuel + 1, now, timer, sigs, r =>
    goSelect now [w.exitingAt, earliest [w.hardAt, r.hardCancelAt], sigs.head?, timer] r
      fun t i =>
        match i with
        | 0 => [{ r with returnAt := some t }]
        | 1 => [{ r with returnAt := some t }]
        | 2 => sigLoop2 w fuel t timer (remainingSignals sigs t) (r.hardCancel t)
        | _ => sigLoop2 w fuel t none sigs (r.hardCancel t)

/-- `signalThread` (lines 177-222) from its first `select`, entered at `start` with
`signal.Notify` in force; `shutdown` (lines 111-114) is inlined. `Shutdown` returns when the
listener is idle or when `gHardContext` is done, whichever comes first, and panics on a nil
`gServer`. The grace timer is created when the first loop has been left. -/
def signalThread (w : World) (start : Nat) : List SigRun :=
  let r0 : SigRun := {}
  goSelect start [w.exitingAt, earliest [w.softAt, w.hardAt], w.signals.head?] r0 fun t i =>
    match i with
    | 0 => [{ r0 with returnAt := some t }]
    | 1 =>
      sigLoop2 w (w.signals.length + 2) t (some (t + graceMs)) w.signals
        { r0 with graceStartAt := some t }
    | _ =>
      let r1 : SigRun := { r0 with softCancelAt := some t }
      if isReadyAt t w.serverAt then
        match wakeAt t [some (t + w.drain), w.hardAt] with
        | none => [r1]
        | some u =>
          sigLoop2 w (w.signals.length + 2) u (some (u + graceMs)) (remainingSignals w.signals t)
            { r1 with shutdownReturnAt := some u, graceStartAt := some u }
      else [{ r1 with panicAt := some t }]

/-- The run of the ladder entered at 100 ms in which both budgets expire. -/
def forcedExitRun : MainRun :=
  { cancelAt := some 100, exitingAt := some 100, forceLogAt := some 6100,
    hardCancelAt := some 6100, returnAt := some 9100 }

/-- The run of the ladder entered at 100 ms when `gWaitDone` is already closed. -/
def cleanExitRun : MainRun :=
  { cancelAt := some 100, exitingAt := some 100, returnAt := some 100 }

/-- The run of `signalThread` that receives one signal at `t0`, spends `d` inside `shutdown`
and then lets the grace timer expire. -/
def singleSignalRun (t0 d : Nat) : SigRun :=
  { softCancelAt := some t0, shutdownReturnAt := some (t0 + d), graceStartAt := some (t0 + d),
    hardCancelAt := some (t0 + d + 5000), returnAt := some (t0 + d + 5000) }

/-- The run of `signalThread` that receives a signal at `t0`, spends `d` inside `shutdown` and
receives a second signal, sent at `t0 + 1000`, as soon as it can. -/
def twoSignalRun (t0 d : Nat) : SigRun :=
  { softCancelAt := some t0, shutdownReturnAt := some (t0 + d), graceStartAt := some (t0 + d),
    hardCancelAt := some (t0 + max 1000 d), returnAt := some (t0 + max 1000 d) }

/-- One signal at 1000 ms, a drain of 200 ms, `gExiting` never closed, `gServer` assigned. -/
def drainWorld : World :=
  { exitingAt := none, softAt := none, hardAt := none, serverAt := some 0, signals := [1000],
    drain := 200 }

/-- One signal at 1000 ms, no drain, `main` closing `gExiting` at 1100 ms. -/
def exitingWorld : World :=
  { exitingAt := some 1100, softAt := some 1100, hardAt := none, serverAt := some 0,
    signals := [1000], drain := 0 }

/-- Signals at 1000 ms and 2000 ms, a drain of 3000 ms. -/
def slowDrainWorld : World :=
  { exitingAt := none, softAt := none, hardAt := none, serverAt := some 0,
    signals := [1000, 2000], drain := 3000 }

/-- Signals at 1000 ms and 2000 ms, a drain of 3000 ms, `main` calling `gCancel` and closing
`gExiting` at 1001 ms, right after the first signal has made `ListenAndServe` return. -/
def slowDrainExitingWorld : World :=
  { exitingAt := some 1001, softAt := some 1001, hardAt := none, serverAt := some 0,
    signals := [1000, 2000], drain := 3000 }

/-- The run of `signalThread` that receives a signal at `t0`, spends `d` inside `shutdown` and
returns at `ret` without ever calling `gHardCancel`. -/
def drainedRun (t0 d ret : Nat) : SigRun :=
  { softCancelAt := some t0, shutdownReturnAt := some (t0 + d), graceStartAt := some (t0 + d),
    hardCancelAt := none, returnAt := some ret }

/-- Signals at 1000 ms and 2000 ms, a drain of 300 ms, `main` calling `gCancel` and closing
`gExiting` at 1001 ms, right after the first signal has made `ListenAndServe` return. -/
def quickDrainExitingWorld : World :=
  { exitingAt := some 1001, softAt := some 1001, hardAt := none, serverAt := some 0,
    signals := [1000, 2000], drain := 300 }

/-- Signals at 1000 ms and 2000 ms, a drain of 300 ms. -/
def quickDrainWorld : World :=
  { exitingAt := none, softAt := none, hardAt := none, serverAt := some 0,
    signals := [1000, 2000], drain := 300 }

/-- Whether `gHardContext` is done at moment `t` in run `r`. -/
def hardDoneAt (w : World) (r : SigRun) (t : Nat) : Bool :=
  isReadyAt t (earliest [w.hardAt, r.hardCancelAt])

/-- Whether `gContext` is done at moment `t` in run `r`. -/
def softDoneAt (w : World) (r : SigRun) (t : Nat) : Bool :=
  isReadyAt t (earliest [w.softAt, r.softCancelAt, w.hardAt, r.hardCancelAt])

/-- Whether an event happens strictly after moment `t`, or never. -/
def laterThan (r : Ready) (t : Nat) : Bool :=
  match r with
  | none => true
  | some u => decide (t < u)

/-! # Theorems -/

/-! ## Part A: the router -/

theorem lit_v1 : lit "/v1/" = [47, 118, 49, 47] := by decide

theorem lit_guilds : lit "/guilds" = [47, 103, 117, 105, 108, 100, 115] := by decide

theorem lit_players : lit "/players" = [47, 112, 108, 97, 121, 101, 114, 115] := by decide

theorem lit_toons : lit "/toons" = [47, 116, 111, 111, 110, 115] := by decide

theorem lit_guilds_slash : lit "/guilds/" = [47, 103, 117, 105, 108, 100, 115, 47] := by decide

theorem hasPrefix_iff (s pre : GoString) : hasPrefix s pre = true ↔ ∃ t, s = pre ++ t := by
  unfold hasPrefix
  rw [List.isPrefixOf_iff_prefix]
  constructor
  · rintro ⟨t, ht⟩
    exact ⟨t, ht.symm⟩
  · rintro ⟨t, ht⟩
    exact ⟨t, ht.symm⟩

theorem indexByte_range (s : GoString) (c : Byte) :
    indexByte s c = -1 ∨ (0 ≤ indexByte s c ∧ indexByte s c < (s.length : Int)) := by
  induction s with
  | nil => left; rfl
  | cons b rest ih =>
    unfold indexByte
    by_cases hb : b = c
    · right
      simp [hb]
    · simp only [hb, if_false]
      rcases ih with h | ⟨h0, h1⟩
      · left
        simp [h]
      · right
        have : ¬ indexByte rest c < 0 := by omega
        simp only [this, if_false, List.length_cons]
        push_cast
        omega

theorem sliceFrom_ok (s : GoString) (i : Int) (h0 : 0 ≤ i) (h1 : i ≤ (s.length : Int)) :
    sliceFrom s i = .ok (s.drop i.toNat) := by
  unfold sliceFrom
  simp [h0, h1]

theorem sliceTo_ok (s : GoString) (j : Int) (h0 : 0 ≤ j) (h1 : j ≤ (s.length : Int)) :
    sliceTo s j = .ok (s.take j.toNat) := by
  unfold sliceTo
  simp [h0, h1]

theorem muxApi_result (v : Nat) (rp : GoString) :
    muxApi v rp = .ok (if rp = lit "/guilds" ∨ rp = lit "/players" ∨ rp = lit "/toons"
      then statusNotImplemented else statusNotFound) := by
  unfold muxApi
  by_cases h1 : rp = lit "/guilds"
  · rw [if_pos h1, if_pos (Or.inl h1)]
    rfl
  rw [if_neg h1]
  by_cases h2 : rp = lit "/players"
  · rw [if_pos h2, if_pos (Or.inr (Or.inl h2))]
    rfl
  rw [if_neg h2]
  by_cases h3 : rp = lit "/toons"
  · rw [if_pos h3, if_pos (Or.inr (Or.inr h3))]
    rfl
  have hno : ¬ (rp = lit "/guilds" ∨ rp = lit "/players" ∨ rp = lit "/toons") := by tauto
  rw [if_neg h3, if_neg hno]
  by_cases hp : hasPrefix rp (lit "/guilds/") = true
  · rw [if_pos hp]
    obtain ⟨t, ht⟩ := (hasPrefix_iff _ _).1 hp
    have hlen : (8 : Int) ≤ (rp.length : Int) := by
      rw [ht, lit_guilds_slash]
      simp only [List.cons_append, List.nil_append, List.length_cons]
      push_cast
      omega
    rw [sliceFrom_ok rp 8 (by omega) hlen]
    simp only [Except.bind, bind]
    generalize List.drop (8 : Int).toNat rp = g
    have hr := indexByte_range g (Fin.ofNat '/'.toNat)
    generalize indexByte g (Fin.ofNat '/'.toNat) = idx at hr
    rcases hr with h | ⟨h0, hlt⟩
    · have hneg : idx < 0 := by omega
      rw [if_pos hneg]
      rfl
    · have hn : ¬ idx < 0 := by omega
      rw [if_neg hn, sliceFrom_ok _ _ h0 (by omega), sliceTo_ok _ _ h0 (by omega)]
      rfl
  · rw [if_neg hp]

theorem drop_three_eq_iff (p t : GoString) (hp : hasPrefix p (lit "/v1/") = true) :
    p.drop 3 = (47 : Byte) :: t ↔ p = lit "/v1/" ++ t := by
  obtain ⟨u, hu⟩ := (hasPrefix_iff _ _).1 hp
  subst hu
  rw [lit_v1]
  simp

/-- C10. For every request path (whatever `path.Clean` returns), `mux` followed by `muxApi`
finishes without an out-of-range slice (the result is `ok`, never a `sliceBounds` panic), and the
status is 501 exactly when the cleaned path is `/v1/guilds`, `/v1/players` or `/v1/toons`, and 404
for every other path. -/
theorem mux_total_and_result (clean : GoString → GoString) (urlPath : GoString) :
    mux clean urlPath = .ok (if clean urlPath ∈ implementedPaths
      then statusNotImplemented else statusNotFound) := by
  unfold mux
  simp only
  generalize clean urlPath = p
  by_cases hp : hasPrefix p (lit "/v1/") = true
  · simp only [hp, if_true]
    obtain ⟨t, ht⟩ := (hasPrefix_iff _ _).1 hp
    have hlen : (3 : Int) ≤ (p.length : Int) := by
      rw [ht, lit_v1]
      simp
      omega
    rw [sliceFrom_ok p 3 (by omega) hlen]
    simp only [Except.bind, bind]
    rw [muxApi_result]
    have e1 : (List.drop (3 : Int).toNat p = lit "/guilds") ↔ p = lit "/v1/guilds" := by
      have := drop_three_eq_iff p (lit "guilds") hp
      simpa using this
    have e2 : (List.drop (3 : Int).toNat p = lit "/players") ↔ p = lit "/v1/players" := by
      have := drop_three_eq_iff p (lit "players") hp
      simpa using this
    have e3 : (List.drop (3 : Int).toNat p = lit "/toons") ↔ p = lit "/v1/toons" := by
      have := drop_three_eq_iff p (lit "toons") hp
      simpa using this
    simp only [e1, e2, e3, implementedPaths, List.mem_cons, List.mem_singleton, List.not_mem_nil,
      or_false]
  · have hn : p ∉ implementedPaths := by
      intro hmem
      apply hp
      simp only [implementedPaths, List.mem_cons, List.mem_singleton, List.not_mem_nil,
        or_false] at hmem
      rcases hmem with h | h | h <;> subst h <;> decide
    simp [hp, hn]

/-! ## Part B: the liveness probe -/

/-- C7 (fails as stated). A failed probe stores 0, which is the value the flag holds before any
write: after a first tick with an error the flag is back at (indistinguishable from) its initial
value, so there is no third "unknown" state that a tick leaves behind. -/
theorem checkDatabase_failure_is_initial :
    checkDatabase (some ()) gHealthyDatabaseInit = gHealthyDatabaseInit ∧
    afterTicks [some ()] gHealthyDatabaseInit = gHealthyDatabaseInit := by
  decide

/-- C7 (amended). The flag is a two-valued word. For every previous value and every probe
outcome, one tick stores 1 when the probe returned no error and 0 when it returned an error; for
every sequence of outcomes the flag after each tick is the value of that tick alone; and the value
stored for an error is the initial value 0. -/
theorem checkDatabase_reflects_probe {ε : Type} (prev : Nat) (o : Option ε)
    (earlier : List (Option ε)) :
    checkDatabase o prev = (if o.isSome then 0 else 1) ∧
    (checkDatabase o prev = 1 ↔ o = none) ∧
    afterTicks (earlier ++ [o]) prev = (if o.isSome then 0 else 1) ∧
    (if o.isSome then afterTicks (earlier ++ [o]) prev = gHealthyDatabaseInit
      else afterTicks (earlier ++ [o]) prev ≠ gHealthyDatabaseInit) := by
  have h : ∀ q : Nat, checkDatabase o q = (if o.isSome then 0 else 1) := by
    intro q
    cases o <;> rfl
  have h2 : afterTicks (earlier ++ [o]) prev = (if o.isSome then 0 else 1) := by
    unfold afterTicks
    simp only [List.foldl_append, List.foldl_cons, List.foldl_nil]
    exact h _
  refine ⟨h prev, ?_, h2, ?_⟩
  · cases o <;> simp [checkDatabase]
  · rw [h2]
    cases o <;> simp [gHealthyDatabaseInit]

/-! ## Part C: the cancellation contexts -/

/-- The contexts right after `init`. -/
theorem initContexts_eq :
    initContexts = ⟨[⟨false, none, [1]⟩, ⟨false, some 0, []⟩], 0, 1⟩ := by decide

/-- Every sequence of cancel calls leaves the contexts in one of three configurations. -/
theorem afterCalls_cases (calls : List CancelCall) :
    afterCalls calls = initContexts ∨ afterCalls calls = gCancel initContexts ∨
      afterCalls calls = gHardCancel initContexts := by
  induction calls using List.reverseRecOn with
  | nil => left; rfl
  | append_singleton cs c ih =>
    have e : afterCalls (cs ++ [c]) = c.apply (afterCalls cs) := by
      simp [afterCalls, List.foldl_append]
    rw [e]
    rcases ih with h | h | h <;> rw [h] <;> cases c
    · right; left; rfl
    · right; right; rfl
    · right; left; decide
    · right; right; decide
    · right; right; decide
    · right; right; decide

/-- C5. In the pair of contexts built by `init`, in every state reached by any sequence of
calls of the two cancel functions: after `gHardCancel` both `gHardContext` and `gContext` report
done; after `gCancel` the soft context reports done and the hard context reports exactly what it
reported before (so it stays not done when it was not done); and a repeated call of either
function changes nothing. -/
theorem cancellation_hierarchy (calls : List CancelCall) :
    hardDone (gHardCancel (afterCalls calls)) = true ∧
    softDone (gHardCancel (afterCalls calls)) = true ∧
    softDone (gCancel (afterCalls calls)) = true ∧
    hardDone (gCancel (afterCalls calls)) = hardDone (afterCalls calls) ∧
    gHardCancel (gHardCancel (afterCalls calls)) = gHardCancel (afterCalls calls) ∧
    gCancel (gCancel (afterCalls calls)) = gCancel (afterCalls calls) := by
  rcases afterCalls_cases calls with h | h | h <;> rw [h] <;> decide

/-! ## Part D: the goroutines -/

theorem gCancel_ctxAfter (a b : Bool) : gCancel (ctxAfter a b) = ctxAfter true b := by
  cases a <;> cases b <;> decide

theorem gHardCancel_ctxAfter (a b : Bool) : gHardCancel (ctxAfter a b) = ctxAfter a true := by
  cases a <;> cases b <;> decide

theorem softDone_ctxAfter (a b : Bool) : softDone (ctxAfter a b) = (a || b) := by
  cases a <;> cases b <;> decide

theorem hardDone_ctxAfter (a b : Bool) : hardDone (ctxAfter a b) = b := by
  cases a <;> cases b <;> decide

theorem wgDone_ctx (s : State) : (wgDone s).ctx = s.ctx := by
  unfold wgDone; simp only; split_ifs <;> rfl

theorem wgDone_cancelCalled (s : State) : (wgDone s).cancelCalled = s.cancelCalled := by
  unfold wgDone; simp only; split_ifs <;> rfl

theorem wgDone_hardCancelCalled (s : State) :
    (wgDone s).hardCancelCalled = s.hardCancelCalled := by
  unfold wgDone; simp only; split_ifs <;> rfl

theorem wgDone_mainPc (s : State) : (wgDone s).mainPc = s.mainPc := by
  unfold wgDone; simp only; split_ifs <;> rfl

theorem wgDone_sigPc (s : State) : (wgDone s).sigPc = s.sigPc := by
  unfold wgDone; simp only; split_ifs <;> rfl

theorem wgDone_adds (s : State) : (wgDone s).adds = s.adds := by
  unfold wgDone; simp only; split_ifs <;> rfl

theorem wgDone_spawned (s : State) : (wgDone s).spawned = s.spawned := by
  unfold wgDone; simp only; split_ifs <;> rfl

theorem wgDone_gWaitDoneCloses (s : State) :
    (wgDone s).gWaitDoneCloses = s.gWaitDoneCloses := by
  unfold wgDone; simp only; split_ifs <;> rfl

theorem wgDone_watcherPc_done (s : State) :
    ((wgDone s).watcherPc = .done) ↔ (s.watcherPc = .done) := by
  unfold wgDone; simp only; split_ifs with h1 h2
  · rfl
  · simp [h2.2]
  · rfl

theorem wgDone_halted_fatal (s : State) (n : Nat) (h : s.halted = none) :
    (wgDone s).halted ≠ some (.fatal n) := by
  unfold wgDone; simp only; split_ifs <;> simp [h]

theorem halted_none_of_not_isSome (s : State) (h : ¬ s.halted.isSome = true) :
    s.halted = none := by
  cases hh : s.halted with
  | none => rfl
  | some x => simp [hh] at h

theorem inv_init : Inv State.init := by
  constructor <;> decide

set_option maxHeartbeats 1000000 in
theorem inv_mainStep (l : MainLabel) (s s' : State) (h : mainStep l s = some s') (hi : Inv s)
    (hh : s.halted = none) : Inv s' := by
  obtain ⟨h1, h2, h3, h4, h5, h6, h7, h8⟩ := hi
  cases hpc : s.mainPc <;> cases l <;> simp only [mainStep, hpc] at h <;>
    (try split at h) <;> (try split at h) <;>
    first
    | contradiction
    | (simp only [Option.some.injEq] at h
       subst h
       constructor <;>
        simp only [wgAdd, callCancel, callHardCancel, gCancel_ctxAfter, gHardCancel_ctxAfter,
          MainPc.pastCancel, MainPc.addsAt, MainPc.spawnedAt, SigPc.pastCancel, h1, hh] <;>
        first
        | assumption
        | rfl
        | simp_all [MainPc.pastCancel, MainPc.addsAt, MainPc.spawnedAt, SigPc.pastCancel])

set_option maxHeartbeats 1000000 in
theorem inv_watcherStep (s s' : State) (h : watcherStep s = some s') (hi : Inv s)
    (_hh : s.halted = none) : Inv s' := by
  obtain ⟨h1, h2, h3, h4, h5, h6, h7, h8⟩ := hi
  cases hpc : s.watcherPc <;> simp only [watcherStep, hpc] at h <;>
    (try split at h) <;>
    first
    | contradiction
    | (simp only [Option.some.injEq] at h
       subst h
       constructor <;>
        first
        | assumption
        | simp_all)

set_option maxHeartbeats 1000000 in
theorem inv_sigStep (l : SigLabel) (s s' : State) (h : sigStep l s = some s') (hi : Inv s)
    (hh : s.halted = none) : Inv s' := by
  obtain ⟨h1, h2, h3, h4, h5, h6, h7, h8⟩ := hi
  cases hpc : s.sigPc <;> cases l <;> simp only [sigStep, hpc] at h <;>
    (try split at h) <;>
    first
    | contradiction
    | (simp only [Option.some.injEq] at h
       subst h
       constructor <;>
        simp only [wgDone_ctx, wgDone_cancelCalled, wgDone_hardCancelCalled, wgDone_mainPc,
          wgDone_adds, wgDone_spawned, wgDone_gWaitDoneCloses, wgDone_watcherPc_done, callCancel,
          callHardCancel, gCancel_ctxAfter, gHardCancel_ctxAfter, SigPc.pastCancel, h1, hh] <;>
        first
        | assumption
        | rfl
        | (simp_all [softDone_ctxAfter, hardDone_ctxAfter, SigPc.pastCancel,
            wgDone_halted_fatal]; done)
        | (simp_all [softDone_ctxAfter, hardDone_ctxAfter, SigPc.pastCancel,
            wgDone_halted_fatal]; tauto))

set_option maxHeartbeats 1000000 in
theorem inv_pingStep (l : PingLabel) (s s' : State) (h : pingStep l s = some s') (hi : Inv s)
    (hh : s.halted = none) : Inv s' := by
  obtain ⟨h1, h2, h3, h4, h5, h6, h7, h8⟩ := hi
  cases hpc : s.pingPc <;> cases l <;> simp only [pingStep, hpc] at h <;>
    (try split at h) <;>
    first
    | contradiction
    | (simp only [Option.some.injEq] at h
       subst h
       constructor <;>
        simp only [wgDone_ctx, wgDone_cancelCalled, wgDone_hardCancelCalled, wgDone_mainPc,
          wgDone_sigPc, wgDone_adds, wgDone_spawned, wgDone_gWaitDoneCloses,
          wgDone_watcherPc_done, h1, hh] <;>
        first
        | assumption
        | rfl
        | simp_all [wgDone_halted_fatal])

theorem inv_osSignalStep (s s' : State) (h : osSignalStep s = some s') (hi : Inv s)
    (_hh : s.halted = none) : Inv s' := by
  obtain ⟨h1, h2, h3, h4, h5, h6, h7, h8⟩ := hi
  unfold osSignalStep at h
  split_ifs at h <;> simp only [Option.some.injEq] at h <;> subst h <;> constructor <;>
    first
    | assumption
    | simp_all

theorem fire_some (t t' : Timer) (h : fire t = some t') : t' = .fired := by
  cases t <;> simp [fire] at h
  exact h.symm

theorem inv_step (l : Label) (s s' : State) (h : step l s = some s') (hi : Inv s) : Inv s' := by
  unfold step at h
  split_ifs at h with hs
  have hh := halted_none_of_not_isSome s hs
  cases l with
  | main m => exact inv_mainStep m s s' h hi hh
  | watcher => exact inv_watcherStep s s' h hi hh
  | sig m => exact inv_sigStep m s s' h hi hh
  | ping m => exact inv_pingStep m s s' h hi hh
  | osSignal => exact inv_osSignalStep s s' h hi hh
  | fireMainTimer =>
    simp only [Option.map_eq_some'] at h
    obtain ⟨t, _, rfl⟩ := h
    obtain ⟨h1, h2, h3, h4, h5, h6, h7, h8⟩ := hi
    constructor <;> assumption
  | fireGraceTimer =>
    simp only [Option.map_eq_some'] at h
    obtain ⟨t, _, rfl⟩ := h
    obtain ⟨h1, h2, h3, h4, h5, h6, h7, h8⟩ := hi
    constructor <;> assumption
  | fireTicker =>
    simp only [Option.map_eq_some'] at h
    obtain ⟨t, _, rfl⟩ := h
    obtain ⟨h1, h2, h3, h4, h5, h6, h7, h8⟩ := hi
    constructor <;> assumption

theorem inv_run (ls : List Label) (s s' : State) (h : run ls s = some s') (hi : Inv s) :
    Inv s' := by
  induction ls generalizing s with
  | nil =>
    simp only [run, Option.some.injEq] at h
    exact h ▸ hi
  | cons l ls ih =>
    simp only [run] at h
    cases hst : step l s with
    | none => simp [hst] at h
    | some s1 =>
      simp only [hst] at h
      exact ih s1 h (inv_step l s s1 hst hi)

theorem inv_reachable (s : State) (h : Reachable s) : Inv s := by
  obtain ⟨ls, hls⟩ := h
  exact inv_run ls State.init s hls inv_init

theorem reachable_stateAfter (ls : List Label) (h : (run ls State.init).isSome = true) :
    Reachable (stateAfter ls) := by
  refine ⟨ls, ?_⟩
  unfold stateAfter
  cases hr : run ls State.init with
  | none => simp [hr] at h
  | some s => rfl

/-- C1 (the code breaks it). In the interleaving in which the goroutine started by `init` runs
first, `gWait.Wait()` finds the counter at zero and returns, and `gWaitDone` is closed while
`main` still stands at line 58: no worker has been registered (no `Add`), none has called
`Done`, and the counter has never been incremented. -/
theorem gWaitDone_closed_before_registration :
    (run earlyWatcherTrace State.init).map
        (fun s => (s.gWaitDoneCloses, s.adds, s.dones, s.counter, s.mainPc, s.halted)) =
      some (1, 0, 0, 0, .l58, none) := by
  rfl

/-- Part of C1 that holds: in every reachable state `gWaitDone` has been closed at most once
(and exactly when the goroutine of `init` has finished). -/
theorem gWaitDone_closed_at_most_once (s : State) (h : Reachable s) :
    s.gWaitDoneCloses ≤ 1 ∧ (0 < s.gWaitDoneCloses ↔ s.watcherPc = .done) := by
  have hi := (inv_reachable s h).closes_eq
  split_ifs at hi with hd <;> simp [hi, hd]

/-- C6. In every reachable state of the program, over all interleavings of `main`, `shutdown`,
`signalThread` and `pingThread`: if `gHardCancel` has been called then `gCancel` has been
called. -/
theorem soft_before_hard (s : State) (h : Reachable s) (hc : s.hardCancelCalled = true) :
    s.cancelCalled = true :=
  (inv_reachable s h).hard_soft hc

/-- Witness for C6: the state in which a second signal has made `signalThread` call
`gHardCancel` is reachable, and `gCancel` has been called in it. -/
theorem soft_before_hard_witness :
    Reachable (stateAfter escalationTrace) ∧
      (stateAfter escalationTrace).hardCancelCalled = true ∧
      (stateAfter escalationTrace).cancelCalled = true :=
  ⟨reachable_stateAfter escalationTrace (by decide), by decide,
    soft_before_hard (stateAfter escalationTrace)
      (reachable_stateAfter escalationTrace (by decide)) (by decide)⟩

/-- The grace timer of `signalThread` can expire, and make it call `gHardCancel`, while `main`
is still inside `ListenAndServe` and `gExiting` is open: nothing orders the return of
`ListenAndServe` before the expiry. -/
theorem grace_expiry_reachable :
    (run graceExpiryTrace State.init).map
        (fun s => (s.hardCancelCalled, s.cancelCalled, s.gExitingClosed, s.mainPc, s.sigPc)) =
      some (true, true, false, .l83, .loop2) := by
  rfl

/-- When `signalThread` has left by the `gExiting` case before the second signal arrives, its
handler is gone: the second signal ends the process by its default action, and `gHardCancel` has
not been called. -/
theorem second_signal_after_return_kills :
    (run lateSignalTrace State.init).map
        (fun s => (s.halted, s.hardCancelCalled, s.cancelCalled, s.gExitingClosed)) =
      some (some .killedBySignal, false, true, true) := by
  rfl

/-- C8 (the code breaks it). `signalThread` is started at line 59, before `gServer` is assigned
at line 76. In the interleaving in which a signal arrives while `main` stands at line 62,
`signalThread` is in its first loop, receives the signal and calls `shutdown`, which cancels the
soft context and then calls `Shutdown` through the nil `gServer`: the process panics and the
second loop is never entered. -/
theorem shutdown_before_server_panics :
    (run (earlySignalTrace.take 5) State.init).map
        (fun s => (s.sigPc.running, s.ch, s.mainPc, s.gServer, s.halted)) =
      some (true, 1, .l62, none, none) ∧
    (run earlySignalTrace State.init).map
        (fun s => (s.cancelCalled, s.sigPc, s.gServer, s.halted)) =
      some (true, .l113, none, some (.panicked .nilDereference)) :=
  ⟨rfl, rfl⟩

/-- C9 (fails as stated). In the interleaving in which `ListenAndServe` fails, `main` aborts
at line 85 after two `gWait.Add(1)` and two `go` statements, not zero. -/
theorem listen_failure_after_workers :
    (run listenFailureTrace State.init).map (fun s => (s.halted, s.adds, s.spawned)) =
      some (some (.fatal 85), 2, 2) := by
  decide

/-- C9 (amended). In every run of `main` in which the listener fails (`ListenAndServe` returns
an error other than `http.ErrServerClosed` and `main` aborts fatally at line 85), both
background workers have been registered and started before the abort: `gWait.Add(1)` has been
executed twice and `go` twice. -/
theorem listen_failure_workers_registered (s : State) (h : Reachable s)
    (hf : s.halted = some (.fatal 85)) : s.adds = 2 ∧ s.spawned = 2 := by
  have hi := inv_reachable s h
  have hpc := hi.fatal_listen hf
  refine ⟨?_, ?_⟩
  · rw [hi.adds_eq, hpc]
    rfl
  · rw [hi.spawned_eq, hpc]
    rfl

/-- Witness for C9 (amended): the state after the failing `ListenAndServe` is reachable. -/
theorem listen_failure_workers_registered_witness :
    Reachable (stateAfter listenFailureTrace) ∧
      (stateAfter listenFailureTrace).halted = some (.fatal 85) ∧
      ((stateAfter listenFailureTrace).adds = 2 ∧ (stateAfter listenFailureTrace).spawned = 2) :=
  ⟨reachable_stateAfter listenFailureTrace (by decide), by decide,
    listen_failure_workers_registered (stateAfter listenFailureTrace)
      (reachable_stateAfter listenFailureTrace (by decide)) (by decide)⟩

/-! ## Part E: timed behaviour -/

theorem earliest_mem (cs : List Ready) (m : Nat) (h : earliest cs = some m) : some m ∈ cs := by
  induction cs generalizing m with
  | nil => simp [earliest] at h
  | cons r rs ih =>
    cases r with
    | none =>
      simp only [earliest] at h
      exact List.mem_cons_of_mem _ (ih m h)
    | some t =>
      simp only [earliest] at h
      cases he : earliest rs with
      | none =>
        simp only [he, Option.some.injEq] at h
        simp [h]
      | some u =>
        simp only [he, Option.some.injEq] at h
        rcases Nat.le_total t u with htu | htu
        · rw [Nat.min_eq_left htu] at h
          simp [h]
        · rw [Nat.min_eq_right htu] at h
          exact List.mem_cons_of_mem _ (ih m (h ▸ he))

theorem earliest_isSome (cs : List Ready) (u : Nat) (hu : some u ∈ cs) :
    ∃ m, earliest cs = some m := by
  cases he : earliest cs with
  | some m => exact ⟨m, rfl⟩
  | none =>
    exfalso
    induction cs with
    | nil => simp at hu
    | cons a as ih =>
      cases a with
      | none =>
        simp only [earliest] at he
        simp only [List.mem_cons, reduceCtorEq, false_or] at hu
        exact ih hu he
      | some x =>
        simp only [earliest] at he
        split at he <;> simp at he

theorem earliest_le (cs : List Ready) (m : Nat) (h : earliest cs = some m) (u : Nat)
    (hu : some u ∈ cs) : m ≤ u := by
  induction cs generalizing m with
  | nil => simp at hu
  | cons r rs ih =>
    cases r with
    | none =>
      simp only [earliest] at h
      simp only [List.mem_cons, reduceCtorEq, false_or] at hu
      exact ih m h hu
    | some t =>
      simp only [earliest] at h
      simp only [List.mem_cons, Option.some.injEq] at hu
      cases he : earliest rs with
      | none =>
        simp only [he, Option.some.injEq] at h
        rcases hu with hu | hu
        · omega
        · obtain ⟨v, hv⟩ := earliest_isSome rs u hu
          rw [he] at hv
          exact absurd hv (by simp)
      | some v =>
        simp only [he, Option.some.injEq] at h
        rcases hu with hu | hu
        · omega
        · have := ih v he hu
          omega

theorem laterThan_not_ready (r : Ready) (T : Nat) (h : laterThan r T = true) :
    isReadyAt T r = false := by
  cases r with
  | none => rfl
  | some u =>
    simp only [laterThan, decide_eq_true_eq] at h
    simp only [isReadyAt, decide_eq_false_iff_not]
    omega

theorem earliest_single (pre post : List Ready) (u T : Nat) (hu : u ≤ T)
    (hpre : ∀ r ∈ pre, laterThan r T = true) (hpost : ∀ r ∈ post, laterThan r T = true) :
    earliest (pre ++ some u :: post) = some u := by
  obtain ⟨m, hm⟩ := earliest_isSome (pre ++ some u :: post) u (by simp)
  have h1 : m ≤ u := earliest_le _ m hm u (by simp)
  have h2 := earliest_mem _ m hm
  simp only [List.mem_append, List.mem_cons, Option.some.injEq] at h2
  rcases h2 with h2 | h2 | h2
  · have := hpre _ h2
    simp only [laterThan, decide_eq_true_eq] at this
    omega
  · rw [hm, h2]
  · have := hpost _ h2
    simp only [laterThan, decide_eq_true_eq] at this
    omega

theorem readyIdx_cons (T k : Nat) (r : Ready) (rs : List Ready) :
    readyIdx T k (r :: rs) =
      if isReadyAt T r then k :: readyIdx T (k + 1) rs else readyIdx T (k + 1) rs := rfl

theorem readyIdx_none (T k : Nat) (cs : List Ready) (h : ∀ r ∈ cs, laterThan r T = true) :
    readyIdx T k cs = [] := by
  induction cs generalizing k with
  | nil => rfl
  | cons r rs ih =>
    simp only [readyIdx, laterThan_not_ready r T (h r (by simp))]
    exact ih (k + 1) (fun r hr => h r (List.mem_cons_of_mem _ hr))

theorem readyIdx_single (pre post : List Ready) (u T k : Nat) (hu : u ≤ T)
    (hpre : ∀ r ∈ pre, laterThan r T = true) (hpost : ∀ r ∈ post, laterThan r T = true) :
    readyIdx T k (pre ++ some u :: post) = [k + pre.length] := by
  induction pre generalizing k with
  | nil =>
    simp only [List.nil_append, readyIdx, isReadyAt, hu, decide_True, if_true, List.length_nil,
      Nat.add_zero]
    rw [readyIdx_none T (k + 1) post hpost]
  | cons r rs ih =>
    rw [List.cons_append, readyIdx_cons, laterThan_not_ready r T (hpre r (by simp)),
      ih (k + 1) (fun r hr => hpre r (List.mem_cons_of_mem _ hr))]
    simp only [List.length_cons, Bool.false_eq_true, if_false]
    congr 1
    omega

theorem selectAt_single (now T u : Nat) (pre post : List Ready) (hT : T = max now u)
    (hpre : ∀ r ∈ pre, laterThan r T = true) (hpost : ∀ r ∈ post, laterThan r T = true) :
    selectAt now (pre ++ some u :: post) = [(T, pre.length)] := by
  have hu : u ≤ T := by omega
  unfold selectAt wakeAt
  rw [earliest_single pre post u T hu hpre hpost]
  simp only [Option.map_some']
  rw [← hT, readyIdx_single pre post u T 0 hu hpre hpost]
  simp

/-- A `select` with exactly one case that can proceed at the wake-up time takes that case. -/
theorem goSelect_single {α : Type} (now T u : Nat) (pre post cases : List Ready) (blocked : α)
    (k : Nat → Nat → List α) (hc : cases = pre ++ some u :: post) (hT : T = max now u)
    (hpre : ∀ r ∈ pre, laterThan r T = true) (hpost : ∀ r ∈ post, laterThan r T = true) :
    goSelect now cases blocked k = k T pre.length := by
  unfold goSelect
  rw [hc, selectAt_single now T u pre post hT hpre hpost]
  simp

theorem mem_readyIdx (T k i : Nat) (cs : List Ready) (h : i ∈ readyIdx T k cs) :
    k ≤ i ∧ ∃ r, cs[i - k]? = some r ∧ isReadyAt T r = true := by
  induction cs generalizing k with
  | nil => simp [readyIdx] at h
  | cons r rs ih =>
    simp only [readyIdx] at h
    by_cases hr : isReadyAt T r = true
    · simp only [hr, if_true, List.mem_cons] at h
      rcases h with h | h
      · subst h
        exact ⟨le_refl _, r, by simp, hr⟩
      · obtain ⟨h1, r', h2, h3⟩ := ih (k + 1) h
        refine ⟨by omega, r', ?_, h3⟩
        have e : i - k = (i - (k + 1)) + 1 := by omega
        rw [e]
        simpa using h2
    · simp only [hr, Bool.false_eq_true, if_false] at h
      obtain ⟨h1, r', h2, h3⟩ := ih (k + 1) h
      refine ⟨by omega, r', ?_, h3⟩
      have e : i - k = (i - (k + 1)) + 1 := by omega
      rw [e]
      simpa using h2

theorem mem_selectAt (now : Nat) (cs : List Ready) (p : Nat × Nat) (h : p ∈ selectAt now cs) :
    ∃ m r, earliest cs = some m ∧ p.1 = max now m ∧ cs[p.2]? = some r ∧
      isReadyAt p.1 r = true := by
  unfold selectAt wakeAt at h
  cases he : earliest cs with
  | none => simp [he] at h
  | some m =>
    simp only [he, Option.map_some', List.mem_map] at h
    obtain ⟨i, hi, rfl⟩ := h
    obtain ⟨_, r, h2, h3⟩ := mem_readyIdx _ 0 i cs hi
    exact ⟨m, r, rfl, rfl, by simpa using h2, h3⟩

theorem selectAt_eq_nil (now : Nat) (cs : List Ready) (h : selectAt now cs = []) :
    earliest cs = none := by
  cases he : earliest cs with
  | none => rfl
  | some m =>
    exfalso
    have hm := earliest_mem cs m he
    obtain ⟨pre, post, hsplit⟩ := List.append_of_mem hm
    have : (max now m, pre.length) ∈ selectAt now cs := by
      unfold selectAt wakeAt
      simp only [he, Option.map_some', List.mem_map]
      refine ⟨pre.length, ?_, rfl⟩
      rw [hsplit]
      clear hsplit he hm h
      have key : ∀ k, k + pre.length ∈ readyIdx (max now m) k (pre ++ some m :: post) := by
        induction pre with
        | nil =>
          intro k
          have hle : m ≤ max now m := by omega
          simp [readyIdx, isReadyAt, hle]
        | cons a as ih =>
          intro k
          have := ih (k + 1)
          rw [List.cons_append, readyIdx_cons, List.length_cons]
          have e : k + (as.length + 1) = k + 1 + as.length := by omega
          rw [e]
          split_ifs
          · exact List.mem_cons_of_mem _ this
          · exact this
      simpa using key 0
    rw [h] at this
    simp at this


theorem mem_goSelect {α : Type} (now : Nat) (cases : List Ready) (blocked : α)
    (k : Nat → Nat → List α) (o : α) (h : o ∈ goSelect now cases blocked k) :
    (o = blocked ∧ earliest cases = none) ∨
      ∃ T i m r, earliest cases = some m ∧ T = max now m ∧ cases[i]? = some r ∧
        isReadyAt T r = true ∧ o ∈ k T i := by
  unfold goSelect at h
  cases hs : selectAt now cases with
  | nil =>
    simp only [hs, List.mem_singleton] at h
    exact Or.inl ⟨h, selectAt_eq_nil _ _ hs⟩
  | cons p ps =>
    simp only [hs, List.mem_flatMap] at h
    obtain ⟨q, hq, ho⟩ := h
    rw [← hs] at hq
    obtain ⟨m, r, h1, h2, h3, h4⟩ := mem_selectAt now cases q hq
    exact Or.inr ⟨q.1, q.2, m, r, h1, h2, h3, h4, ho⟩

theorem goSelect_ne_nil {α : Type} (now : Nat) (cases : List Ready) (blocked : α)
    (k : Nat → Nat → List α) (hk : ∀ T i, k T i ≠ []) : goSelect now cases blocked k ≠ [] := by
  unfold goSelect
  cases hs : selectAt now cases with
  | nil => simp
  | cons p ps =>
    simp only [List.flatMap_cons]
    intro h
    exact hk p.1 p.2 (List.append_eq_nil.1 h).1

theorem mainExit_ne_nil (s : Nat) (wd : Ready) : mainExit s wd ≠ [] := by
  unfold mainExit
  apply goSelect_ne_nil
  intro T i
  split
  · simp
  · apply goSelect_ne_nil
    intro T2 j
    simp

/-- C4. For every moment `wd` (possibly never) at which `gWaitDone` is closed, the ladder of
`main` entered at moment `s` has a run, and in every run: `main` returns, no later than
`s + 9000` ms; if `gWaitDone` has not been closed by `s + 6000` ms, `gHardCancel` is called at
`s + 6000` ms; and if `gWaitDone` is closed strictly before `s + 6000` ms, `main` returns at that
moment (at `s` itself when it was closed earlier) without calling `gHardCancel` and without
logging the forced exit. -/
theorem mainExit_bounded (s : Nat) (wd : Ready) :
    mainExit s wd ≠ [] ∧
    ∀ o ∈ mainExit s wd,
      (∃ r, o.returnAt = some r ∧ s ≤ r ∧ r ≤ s + 9000) ∧
      (laterThan wd (s + 6000) = true → o.hardCancelAt = some (s + 6000)) ∧
      (∀ t, wd = some t → t < s + 6000 →
        o.returnAt = some (max s t) ∧ o.hardCancelAt = none ∧ o.forceLogAt = none) := by
  refine ⟨mainExit_ne_nil s wd, ?_⟩
  intro o ho
  unfold mainExit at ho
  simp only at ho
  rcases mem_goSelect _ _ _ _ _ ho with ⟨_, he⟩ | ⟨T, i, m, r, he, hT, hi, hr, hk⟩
  · cases wd <;> simp [earliest] at he
  · rcases i with _ | _ | i
    · -- the case `<-gWaitDone`
      simp only [List.getElem?_cons_zero, Option.some.injEq] at hi
      subst hi
      simp only [List.mem_singleton] at hk
      subst hk
      cases wd with
      | none => simp [isReadyAt] at hr
      | some t =>
        simp only [isReadyAt, decide_eq_true_eq] at hr
        simp only [earliest, Option.some.injEq, firstBudgetMs] at he
        refine ⟨⟨T, rfl, by omega, by omega⟩, ?_, ?_⟩
        · intro hl
          simp only [laterThan, decide_eq_true_eq] at hl
          omega
        · intro t' ht' hlt
          simp only [Option.some.injEq] at ht'
          subst ht'
          refine ⟨?_, rfl, rfl⟩
          simp only [Option.some.injEq]
          omega
    · -- the case `<-t.C`
      simp only [List.getElem?_cons_succ, List.getElem?_cons_zero, Option.some.injEq] at hi
      subst hi
      simp only [isReadyAt, decide_eq_true_eq, firstBudgetMs] at hr
      have hT' : T = s + 6000 := by
        cases wd with
        | none =>
          simp only [earliest, Option.some.injEq, firstBudgetMs] at he
          omega
        | some t =>
          simp only [earliest, Option.some.injEq, firstBudgetMs] at he
          omega
      have hwd : ∀ t, wd = some t → s + 6000 ≤ t := by
        intro t ht
        subst ht
        simp only [earliest, Option.some.injEq, firstBudgetMs] at he
        omega
      rcases mem_goSelect _ _ _ _ _ hk with ⟨_, he2⟩ | ⟨T2, j, m2, r2, he2, hT2, _, _, hk2⟩
      · cases wd <;> simp [earliest] at he2
      · simp only [List.mem_singleton] at hk2
        subst hk2
        have hT2' : T ≤ T2 ∧ T2 ≤ T + 3000 := by
          cases wd with
          | none =>
            simp only [earliest, Option.some.injEq, finalBudgetMs] at he2
            omega
          | some t =>
            simp only [earliest, Option.some.injEq, finalBudgetMs] at he2
            omega
        refine ⟨⟨T2, rfl, by omega, by omega⟩, ?_, ?_⟩
        · intro _
          simp only [hT']
        · intro t ht hlt
          have := hwd t ht
          omega
    · simp at hi

/-- Witness for C4: the ladder entered at 100 ms when `gWaitDone` is never closed has the run
that calls `gHardCancel` at 6100 ms and returns at 9100 ms; when `gWaitDone` was closed at 50 ms
it has the run that returns at 100 ms without a forced exit. -/
theorem mainExit_bounded_witness :
    (forcedExitRun ∈ mainExit 100 none ∧
      (∃ r, forcedExitRun.returnAt = some r ∧ 100 ≤ r ∧ r ≤ 100 + 9000) ∧
      forcedExitRun.hardCancelAt = some (100 + 6000)) ∧
    (cleanExitRun ∈ mainExit 100 (some 50) ∧
      cleanExitRun.returnAt = some (max 100 50) ∧ cleanExitRun.hardCancelAt = none ∧
      cleanExitRun.forceLogAt = none) :=
  ⟨⟨by decide, ((mainExit_bounded 100 none).2 forcedExitRun (by decide)).1,
      ((mainExit_bounded 100 none).2 forcedExitRun (by decide)).2.1 (by decide)⟩,
    by decide,
    ((mainExit_bounded 100 (some 50)).2 cleanExitRun (by decide)).2.2 50 rfl (by decide)⟩

theorem laterThan_earliest (cs : List Ready) (T : Nat) (h : ∀ r ∈ cs, laterThan r T = true) :
    laterThan (earliest cs) T = true := by
  cases he : earliest cs with
  | none => rfl
  | some m => exact h _ (earliest_mem cs m he)

theorem laterThan_mono (r : Ready) (T T' : Nat) (h : laterThan r T = true) (hle : T' ≤ T) :
    laterThan r T' = true := by
  cases r with
  | none => rfl
  | some u =>
    simp only [laterThan, decide_eq_true_eq] at h ⊢
    omega

theorem sigLoop2_succ (w : World) (fuel now : Nat) (timer : Ready) (sigs : List Nat)
    (r : SigRun) :
    sigLoop2 w (fuel + 1) now timer sigs r =
      goSelect now [w.exitingAt, earliest [w.hardAt, r.hardCancelAt], sigs.head?, timer] r
        fun t i =>
          match i with
          | 0 => [{ r with returnAt := some t }]
          | 1 => [{ r with returnAt := some t }]
          | 2 => sigLoop2 w fuel t timer (remainingSignals sigs t) (r.hardCancel t)
          | _ => sigLoop2 w fuel t none sigs (r.hardCancel t) := rfl

theorem forall_mem_three (a b c : Ready) (T : Nat) (ha : laterThan a T = true)
    (hb : laterThan b T = true) (hc : laterThan c T = true) :
    ∀ r ∈ [a, b, c], laterThan r T = true := by
  intro r hr
  simp only [List.mem_cons, List.mem_singleton, List.not_mem_nil, or_false] at hr
  rcases hr with rfl | rfl | rfl <;> assumption

theorem forall_mem_two (a b : Ready) (T : Nat) (ha : laterThan a T = true)
    (hb : laterThan b T = true) : ∀ r ∈ [a, b], laterThan r T = true := by
  intro r hr
  simp only [List.mem_cons, List.mem_singleton, List.not_mem_nil, or_false] at hr
  rcases hr with rfl | rfl <;> assumption

theorem forall_mem_one (a : Ready) (T : Nat) (ha : laterThan a T = true) :
    ∀ r ∈ [a], laterThan r T = true := by
  intro r hr
  simp only [List.mem_singleton] at hr
  exact hr ▸ ha

theorem forall_mem_nil (T : Nat) : ∀ r ∈ ([] : List Ready), laterThan r T = true := by
  intro r hr
  simp at hr

/-- The second loop when only the grace timer can proceed first: lines 217-219. -/
theorem sigLoop2_timer (w : World) (fuel now dl : Nat) (sigs : List Nat) (r : SigRun)
    (hdl : now ≤ dl) (hex : laterThan w.exitingAt dl = true)
    (hh : laterThan (earliest [w.hardAt, r.hardCancelAt]) dl = true)
    (hs : laterThan sigs.head? dl = true) :
    sigLoop2 w (fuel + 1) now (some dl) sigs r =
      sigLoop2 w fuel dl none sigs (r.hardCancel dl) := by
  rw [sigLoop2_succ, goSelect_single now dl dl
    [w.exitingAt, earliest [w.hardAt, r.hardCancelAt], sigs.head?] []
    [w.exitingAt, earliest [w.hardAt, r.hardCancelAt], sigs.head?, some dl] _ _ rfl (by omega)
    (forall_mem_three _ _ _ _ hex hh hs) (forall_mem_nil _)]
  rfl

/-- The second loop when only a signal can proceed first: lines 214-216. -/
theorem sigLoop2_signal (w : World) (fuel now T a : Nat) (timer : Ready) (rest : List Nat)
    (r : SigRun) (hT : T = max now a) (hex : laterThan w.exitingAt T = true)
    (hh : laterThan (earliest [w.hardAt, r.hardCancelAt]) T = true)
    (ht : laterThan timer T = true) :
    sigLoop2 w (fuel + 1) now timer (a :: rest) r =
      sigLoop2 w fuel T timer (remainingSignals (a :: rest) T) (r.hardCancel T) := by
  rw [sigLoop2_succ, goSelect_single now T a
    [w.exitingAt, earliest [w.hardAt, r.hardCancelAt]] [timer]
    [w.exitingAt, earliest [w.hardAt, r.hardCancelAt], (a :: rest).head?, timer] _ _ rfl hT
    (forall_mem_two _ _ _ hex hh) (forall_mem_one _ _ ht)]
  rfl

/-- The second loop when only `gHardContext.Done()` can proceed first: lines 211-212. -/
theorem sigLoop2_hardDone (w : World) (fuel now T h : Nat) (timer : Ready) (sigs : List Nat)
    (r : SigRun) (hh : earliest [w.hardAt, r.hardCancelAt] = some h) (hT : T = max now h)
    (hex : laterThan w.exitingAt T = true) (hs : laterThan sigs.head? T = true)
    (ht : laterThan timer T = true) :
    sigLoop2 w (fuel + 1) now timer sigs r = [{ r with returnAt := some T }] := by
  rw [sigLoop2_succ, goSelect_single now T h [w.exitingAt] [sigs.head?, timer]
    [w.exitingAt, earliest [w.hardAt, r.hardCancelAt], sigs.head?, timer] _ _ (by rw [hh]; rfl)
    hT (forall_mem_one _ _ hex) (forall_mem_two _ _ _ hs ht)]
  rfl

theorem readyIdx_skip (pre rest : List Ready) (u T k : Nat) (hu : u ≤ T)
    (hpre : ∀ r ∈ pre, laterThan r T = true) :
    readyIdx T k (pre ++ some u :: rest) =
      (k + pre.length) :: readyIdx T (k + pre.length + 1) rest := by
  induction pre generalizing k with
  | nil =>
    simp only [List.nil_append, readyIdx_cons, isReadyAt, hu, decide_True, if_true,
      List.length_nil, Nat.add_zero]
  | cons r rs ih =>
    rw [List.cons_append, readyIdx_cons, laterThan_not_ready r T (hpre r (by simp)),
      ih (k + 1) (fun r hr => hpre r (List.mem_cons_of_mem _ hr))]
    simp only [List.length_cons, Bool.false_eq_true, if_false]
    have e1 : k + 1 + rs.length = k + (rs.length + 1) := by omega
    rw [e1]

theorem earliest_two (pre mid post : List Ready) (u1 u2 T : Nat) (hu1 : u1 ≤ T) (_hu2 : u2 ≤ T)
    (hpre : ∀ r ∈ pre, laterThan r T = true) (hmid : ∀ r ∈ mid, laterThan r T = true)
    (hpost : ∀ r ∈ post, laterThan r T = true) :
    earliest (pre ++ some u1 :: (mid ++ some u2 :: post)) = some (min u1 u2) := by
  obtain ⟨m, hm⟩ := earliest_isSome (pre ++ some u1 :: (mid ++ some u2 :: post)) u1 (by simp)
  have h1 : m ≤ u1 := earliest_le _ m hm u1 (by simp)
  have h2 : m ≤ u2 := earliest_le _ m hm u2 (by simp)
  have h3 := earliest_mem _ m hm
  simp only [List.mem_append, List.mem_cons, Option.some.injEq] at h3
  rw [hm]
  rcases h3 with h3 | h3 | h3 | h3 | h3
  · have := hpre _ h3
    simp only [laterThan, decide_eq_true_eq] at this
    omega
  · simp only [Option.some.injEq]
    omega
  · have := hmid _ h3
    simp only [laterThan, decide_eq_true_eq] at this
    omega
  · simp only [Option.some.injEq]
    omega
  · have := hpost _ h3
    simp only [laterThan, decide_eq_true_eq] at this
    omega

/-- A `select` with exactly two cases that can proceed at the wake-up time takes either. -/
theorem goSelect_two {α : Type} (now T u1 u2 : Nat) (pre mid post cases : List Ready)
    (blocked : α) (k : Nat → Nat → List α)
    (hc : cases = pre ++ some u1 :: (mid ++ some u2 :: post))
    (hT : T = max now (min u1 u2)) (hu1 : u1 ≤ T) (hu2 : u2 ≤ T)
    (hpre : ∀ r ∈ pre, laterThan r T = true) (hmid : ∀ r ∈ mid, laterThan r T = true)
    (hpost : ∀ r ∈ post, laterThan r T = true) :
    goSelect now cases blocked k = k T pre.length ++ k T (pre.length + 1 + mid.length) := by
  unfold goSelect selectAt wakeAt
  rw [hc, earliest_two pre mid post u1 u2 T hu1 hu2 hpre hmid hpost]
  simp only [Option.map_some']
  rw [← hT, readyIdx_skip pre _ u1 T 0 hu1 hpre,
    readyIdx_single mid post u2 T (0 + pre.length + 1) hu2 hmid hpost]
  simp

/-- The second loop when `gExiting` and a signal can both proceed first: the watcher returns
(lines 208-209) or calls `gHardCancel` (lines 214-216). -/
theorem sigLoop2_exiting_or_signal (w : World) (fuel now T e a : Nat) (timer : Ready)
    (rest : List Nat) (r : SigRun) (he : w.exitingAt = some e)
    (hT : T = max now (min e a)) (heT : e ≤ T) (haT : a ≤ T)
    (hh : laterThan (earliest [w.hardAt, r.hardCancelAt]) T = true)
    (ht : laterThan timer T = true) :
    sigLoop2 w (fuel + 1) now timer (a :: rest) r =
      { r with returnAt := some T } ::
        sigLoop2 w fuel T timer (remainingSignals (a :: rest) T) (r.hardCancel T) := by
  rw [sigLoop2_succ, goSelect_two now T e a [] [earliest [w.hardAt, r.hardCancelAt]] [timer]
    [w.exitingAt, earliest [w.hardAt, r.hardCancelAt], (a :: rest).head?, timer] _ _
    (by rw [he]; rfl) hT heT haT (forall_mem_nil _) (forall_mem_one _ _ hh)
    (forall_mem_one _ _ ht)]
  rfl

/-- The second loop when `gExiting` and `gHardContext.Done()` can both proceed first: the
watcher returns by either case. -/
theorem sigLoop2_exiting_or_hardDone (w : World) (fuel now T e h : Nat) (timer : Ready)
    (sigs : List Nat) (r : SigRun) (he : w.exitingAt = some e)
    (hh : earliest [w.hardAt, r.hardCancelAt] = some h)
    (hT : T = max now (min e h)) (heT : e ≤ T) (hhT : h ≤ T)
    (hs : laterThan sigs.head? T = true) (ht : laterThan timer T = true) :
    sigLoop2 w (fuel + 1) now timer sigs r =
      [{ r with returnAt := some T }, { r with returnAt := some T }] := by
  rw [sigLoop2_succ, goSelect_two now T e h [] [] [sigs.head?, timer]
    [w.exitingAt, earliest [w.hardAt, r.hardCancelAt], sigs.head?, timer] _ _
    (by rw [he, hh]; rfl) hT heT hhT (forall_mem_nil _) (forall_mem_nil _)
    (forall_mem_two _ _ _ hs ht)]
  rfl

/-- The second loop when only `gExiting` can proceed first: lines 208-209. -/
theorem sigLoop2_exiting (w : World) (fuel now T e : Nat) (timer : Ready) (sigs : List Nat)
    (r : SigRun) (he : w.exitingAt = some e) (hT : T = max now e)
    (hh : laterThan (earliest [w.hardAt, r.hardCancelAt]) T = true)
    (hs : laterThan sigs.head? T = true) (ht : laterThan timer T = true) :
    sigLoop2 w (fuel + 1) now timer sigs r = [{ r with returnAt := some T }] := by
  rw [sigLoop2_succ, goSelect_single now T e [] [earliest [w.hardAt, r.hardCancelAt], sigs.head?, timer]
    [w.exitingAt, earliest [w.hardAt, r.hardCancelAt], sigs.head?, timer] _ _ (by rw [he]; rfl)
    hT (forall_mem_nil _) (forall_mem_three _ _ _ _ hh hs ht)]
  rfl

/-- The first loop when only a signal can proceed first and `gServer` has been assigned:
lines 196-199 with `shutdown`, up to the creation of the grace timer. -/
theorem signalThread_signal (w : World) (start T a u : Nat) (rest : List Nat)
    (hsig : w.signals = a :: rest) (hT : T = max start a)
    (hex : laterThan w.exitingAt T = true)
    (hctx : laterThan (earliest [w.softAt, w.hardAt]) T = true)
    (hsrv : isReadyAt T w.serverAt = true)
    (hu : wakeAt T [some (T + w.drain), w.hardAt] = some u) :
    signalThread w start =
      sigLoop2 w (w.signals.length + 2) u (some (u + graceMs)) (remainingSignals w.signals T)
        { softCancelAt := some T, shutdownReturnAt := some u, graceStartAt := some u } := by
  unfold signalThread
  simp only
  rw [goSelect_single start T a [w.exitingAt, earliest [w.softAt, w.hardAt]] []
    [w.exitingAt, earliest [w.softAt, w.hardAt], w.signals.head?] _ _ (by rw [hsig]; rfl) hT
    (forall_mem_two _ _ _ hex hctx) (forall_mem_nil _)]
  simp only [List.length_cons, List.length_nil, Nat.reduceAdd, hsrv, if_true, hu]

theorem hardCancel_outOfFuel (r : SigRun) (t : Nat) :
    (r.hardCancel t).outOfFuel = r.outOfFuel := by
  unfold SigRun.hardCancel
  split <;> rfl

theorem remainingSignals_length (sigs : List Nat) (t : Nat) :
    (remainingSignals sigs t).length ≤ sigs.length - 1 := by
  unfold remainingSignals
  calc (sigs.tail.filter _).length ≤ sigs.tail.length := List.length_filter_le _ _
    _ = sigs.length - 1 := by simp

/-- The bound on the iterations of the second loop is never reached: every iteration that
continues has received a signal or the value of the timer. -/
theorem sigLoop2_fuel (w : World) (fuel now : Nat) (timer : Ready) (sigs : List Nat)
    (r : SigRun) (hf : sigs.length + (if timer.isSome then 1 else 0) < fuel)
    (hr : r.outOfFuel = false) : ∀ o ∈ sigLoop2 w fuel now timer sigs r, o.outOfFuel = false := by
  induction fuel generalizing now timer sigs r with
  | zero => omega
  | succ fuel ih =>
    intro o ho
    rw [sigLoop2_succ] at ho
    rcases mem_goSelect _ _ _ _ _ ho with ⟨rfl, _⟩ | ⟨T, i, m, r', _, _, hi, hready, hk⟩
    · exact hr
    · rcases i with _ | _ | _ | _ | i
      · simp only [List.mem_singleton] at hk
        subst hk
        exact hr
      · simp only [List.mem_singleton] at hk
        subst hk
        exact hr
      · simp only [List.getElem?_cons_succ, List.getElem?_cons_zero, Option.some.injEq] at hi
        subst hi
        cases sigs with
        | nil => simp [isReadyAt] at hready
        | cons a rest =>
          refine ih T timer _ _ ?_ ?_ o hk
          · have := remainingSignals_length (a :: rest) T
            simp only [List.length_cons] at this hf
            omega
          · rw [hardCancel_outOfFuel]
            exact hr
      · simp only [List.getElem?_cons_succ, List.getElem?_cons_zero, Option.some.injEq] at hi
        subst hi
        cases timer with
        | none => simp [isReadyAt] at hready
        | some dl =>
          refine ih T none sigs _ ?_ ?_ o hk
          · simp only [Option.isSome_some, if_true, Option.isSome_none] at hf ⊢
            simp only [Bool.false_eq_true, if_false]
            omega
          · rw [hardCancel_outOfFuel]
            exact hr
      · simp at hi

/-- No run of `signalThread` is cut short by the bound on the iterations. -/
theorem signalThread_fuel (w : World) (start : Nat) :
    ∀ o ∈ signalThread w start, o.outOfFuel = false := by
  intro o ho
  unfold signalThread at ho
  simp only at ho
  rcases mem_goSelect _ _ _ _ _ ho with ⟨rfl, _⟩ | ⟨T, i, m, r', _, _, hi, hready, hk⟩
  · rfl
  · rcases i with _ | _ | i
    · simp only [List.mem_singleton] at hk
      subst hk
      rfl
    · refine sigLoop2_fuel w _ T _ _ _ ?_ rfl o hk
      simp only [Option.isSome_some, if_true]
      omega
    · simp only at hk
      split_ifs at hk
      · split at hk
        · simp only [List.mem_singleton] at hk
          subst hk
          rfl
        · refine sigLoop2_fuel w _ _ _ _ _ ?_ rfl o hk
          have := remainingSignals_length w.signals T
          simp only [Option.isSome_some, if_true]
          omega
      · simp only [List.mem_singleton] at hk
        subst hk
        rfl

theorem signalThread_ne_nil_aux (w : World) (fuel now : Nat) (timer : Ready) (sigs : List Nat)
    (r : SigRun) : sigLoop2 w fuel now timer sigs r ≠ [] := by
  induction fuel generalizing now timer sigs r with
  | zero => simp [sigLoop2]
  | succ fuel ih =>
    rw [sigLoop2_succ]
    apply goSelect_ne_nil
    intro T i
    split
    · simp
    · simp
    · exact ih _ _ _ _
    · exact ih _ _ _ _

/-- `signalThread` always has a run. -/
theorem signalThread_ne_nil (w : World) (start : Nat) : signalThread w start ≠ [] := by
  unfold signalThread
  apply goSelect_ne_nil
  intro T i
  split
  · simp
  · exact signalThread_ne_nil_aux _ _ _ _ _ _
  · split_ifs
    · split
      · simp
      · exact signalThread_ne_nil_aux _ _ _ _ _ _
    · simp

theorem hardDoneAt_of_watcher (w : World) (r : SigRun) (h t : Nat) (hw : w.hardAt = none)
    (hr : r.hardCancelAt = some h) : hardDoneAt w r t = decide (h ≤ t) := by
  simp [hardDoneAt, hw, hr, earliest, isReadyAt]

/-- C2 (fails as stated). Signal at 1000 ms, nothing else cancels, `gExiting` is never closed,
and the listener needs 200 ms to drain: the grace timer is created when `shutdown` returns, at
1200 ms, the watcher calls `gHardCancel` at 6200 ms, and `gHardContext` is not done at
1000 + 5100 ms. And when `main` closes `gExiting` 100 ms after the signal (the drain taking no
time), the watcher returns by the `gExiting` case and never calls `gHardCancel`. -/
theorem grace_not_from_signal :
    signalThread drainWorld 0 = [singleSignalRun 1000 200] ∧
    (singleSignalRun 1000 200).softCancelAt = some 1000 ∧
    (singleSignalRun 1000 200).hardCancelAt = some 6200 ∧
    hardDoneAt drainWorld (singleSignalRun 1000 200) (1000 + 5100) = false ∧
    signalThread exitingWorld 0 =
      [{ softCancelAt := some 1000, shutdownReturnAt := some 1000, graceStartAt := some 1000,
         hardCancelAt := none, returnAt := some 1100 }] := by
  decide

/-- C2 (amended). For every run in which the watcher is in its first loop (entered at `start`)
with `gServer` assigned, exactly one termination signal arrives, at `t0`, nothing else cancels
the hard context, the soft context is not cancelled and `gExiting` is not closed before the
signal, and for every duration `w.drain` of the listener drain, the watcher has exactly one run,
in which it cancels the soft context at `t0` and in which `shutdown` returns and the grace timer
starts at `t0 + w.drain`. If `gExiting` is not closed before the grace timer expires, the watcher
cancels the hard context 5 s after the return of `shutdown`: `gHardContext` is done exactly from
`t0 + w.drain + 5000` ms on, so it is not done at `t0 + w.drain + 4900` and is done at
`t0 + w.drain + 5100`. If `gExiting` is closed before the grace timer expires, the watcher
returns by the `gExiting` case and never cancels the hard context. -/
theorem grace_after_shutdown (w : World) (start t0 : Nat)
    (hsig : w.signals = [t0]) (hstart : start ≤ t0)
    (hsoft : laterThan w.softAt t0 = true) (hhard : w.hardAt = none)
    (hsrv : isReadyAt t0 w.serverAt = true)
    (hrunning : laterThan w.exitingAt t0 = true) :
    (laterThan w.exitingAt (t0 + w.drain + 5000) = true →
      signalThread w start = [singleSignalRun t0 w.drain] ∧
      (singleSignalRun t0 w.drain).softCancelAt = some t0 ∧
      (singleSignalRun t0 w.drain).graceStartAt = some (t0 + w.drain) ∧
      (∀ t, hardDoneAt w (singleSignalRun t0 w.drain) t = decide (t0 + w.drain + 5000 ≤ t)) ∧
      hardDoneAt w (singleSignalRun t0 w.drain) (t0 + w.drain + 4900) = false ∧
      hardDoneAt w (singleSignalRun t0 w.drain) (t0 + w.drain + 5100) = true) ∧
    (∀ e, w.exitingAt = some e → e < t0 + w.drain + 5000 →
      signalThread w start =
        [{ softCancelAt := some t0, shutdownReturnAt := some (t0 + w.drain),
           graceStartAt := some (t0 + w.drain), hardCancelAt := none,
           returnAt := some (max (t0 + w.drain) e) }]) := by
  have hu : wakeAt t0 [some (t0 + w.drain), w.hardAt] = some (t0 + w.drain) := by
    simp only [hhard, wakeAt, earliest, Option.map_some', Option.some.injEq]
    omega
  have hfirst : signalThread w start =
      sigLoop2 w 3 (t0 + w.drain) (some (t0 + w.drain + 5000)) []
        { softCancelAt := some t0, shutdownReturnAt := some (t0 + w.drain),
          graceStartAt := some (t0 + w.drain) } := by
    rw [signalThread_signal w start t0 t0 (t0 + w.drain) [] hsig (by omega) hrunning
      (laterThan_earliest _ _ (forall_mem_two _ _ _ hsoft (by rw [hhard]; rfl))) hsrv hu]
    simp only [hsig, List.length_singleton, Nat.reduceAdd, remainingSignals, List.tail_cons,
      List.filter_nil, graceMs]
  refine ⟨?_, ?_⟩
  · intro hexit
    have hrun : signalThread w start = [singleSignalRun t0 w.drain] := by
      rw [hfirst, sigLoop2_timer w 2 _ _ _ _ (by omega) hexit (by rw [hhard]; rfl) (by rfl),
        sigLoop2_hardDone w 1 _ (t0 + w.drain + 5000) (t0 + w.drain + 5000) _ _ _
          (by rw [hhard]; rfl) (by omega) hexit (by rfl) (by rfl)]
      rfl
    have hd : ∀ t, hardDoneAt w (singleSignalRun t0 w.drain) t =
        decide (t0 + w.drain + 5000 ≤ t) :=
      fun t => hardDoneAt_of_watcher w _ _ t hhard rfl
    refine ⟨hrun, rfl, rfl, hd, ?_, ?_⟩
    · rw [hd]
      simp
    · rw [hd]
      simp
  · intro e he hlt
    rw [hfirst, sigLoop2_exiting w 2 _ (max (t0 + w.drain) e) e _ _ _ he rfl
      (by rw [hhard]; rfl) (by rfl)
      (by simp only [laterThan, decide_eq_true_eq]; omega)]

/-- Witness for C2 (amended): a signal at 1000 ms with a drain of 200 ms and `gExiting` never
closed (the hard context is done at 6300 ms), and a signal at 1000 ms with no drain and
`gExiting` closed at 1100 ms (the watcher returns at 1100 ms without cancelling). -/
theorem grace_after_shutdown_witness :
    (signalThread drainWorld 0 = [singleSignalRun 1000 200] ∧
      hardDoneAt drainWorld (singleSignalRun 1000 200) (1000 + 200 + 5100) = true) ∧
    signalThread exitingWorld 0 =
      [{ softCancelAt := some 1000, shutdownReturnAt := some (1000 + 0),
         graceStartAt := some (1000 + 0), hardCancelAt := none,
         returnAt := some (max (1000 + 0) 1100) }] :=
  have h := (grace_after_shutdown drainWorld 0 1000 (by decide) (by decide) (by decide)
    (by decide) (by decide) (by decide)).1 (by decide)
  ⟨⟨h.1, h.2.2.2.2.2⟩,
    (grace_after_shutdown exitingWorld 0 1000 (by decide) (by decide) (by decide)
      (by decide) (by decide) (by decide)).2 1100 rfl (by decide)⟩

/-- C3 (fails as stated). Signals at 1000 ms and 2000 ms, a drain of 3000 ms, nothing else
happening: the second signal waits in `ch` while the watcher is inside `shutdown`; the watcher
calls `gHardCancel` when `shutdown` has returned, at 4000 ms, and `gHardContext` is not done at
the second signal (2000 ms) nor one second after it. The same holds in every run when `main`
closes `gExiting` right after the first signal: the hard context is not done at 2000 ms. -/
theorem second_signal_waits_for_drain :
    signalThread slowDrainWorld 0 = [twoSignalRun 1000 3000] ∧
    (twoSignalRun 1000 3000).hardCancelAt = some 4000 ∧
    hardDoneAt slowDrainWorld (twoSignalRun 1000 3000) 2000 = false ∧
    hardDoneAt slowDrainWorld (twoSignalRun 1000 3000) 3000 = false ∧
    signalThread slowDrainExitingWorld 0 ≠ [] ∧
    (∀ o ∈ signalThread slowDrainExitingWorld 0,
      hardDoneAt slowDrainExitingWorld o 2000 = false) := by
  decide

/-- C3 (amended). For every run in which the watcher is in its first loop with `gServer`
assigned, a first termination signal arrives at `t0` and a second one at `t0 + 1000` ms, nothing
else cancels the hard context, the soft context is not cancelled and `gExiting` is not closed
before the first signal, and for every duration `w.drain` of the call of `Shutdown` started by
the first signal, with `T = t0 + max 1000 w.drain` the first moment at which the watcher is in its
second loop and the second signal has arrived (`t0 + 1000` when the drain has finished by then,
the return of `shutdown` otherwise):

* if `gExiting` is not closed by `T`, the watcher has exactly one run and cancels the hard context
  at `T`, before the grace timer (started at `t0 + w.drain`) expires;
* if `gExiting` is closed before the second signal and the drain is shorter than 1 s, the watcher
  has exactly one run: it returns by the `gExiting` case when `shutdown` has returned and
  `gExiting` is closed, before the second signal, and never cancels the hard context;
* in every other case in which `gExiting` is closed by `T`, both the `gExiting` case and the
  signal case can proceed at `T`: the watcher either returns without cancelling the hard context
  or cancels it at `T`, and returns at `T` in both cases. -/
theorem second_signal_escalates (w : World) (start t0 : Nat)
    (hsig : w.signals = [t0, t0 + 1000]) (hstart : start ≤ t0)
    (hsoft : laterThan w.softAt t0 = true) (hhard : w.hardAt = none)
    (hsrv : isReadyAt t0 w.serverAt = true)
    (hrunning : laterThan w.exitingAt t0 = true) :
    (laterThan w.exitingAt (t0 + max 1000 w.drain) = true →
      signalThread w start = [twoSignalRun t0 w.drain] ∧
      (twoSignalRun t0 w.drain).hardCancelAt = some (t0 + max 1000 w.drain) ∧
      (∀ t, hardDoneAt w (twoSignalRun t0 w.drain) t = decide (t0 + max 1000 w.drain ≤ t)) ∧
      t0 + max 1000 w.drain < t0 + w.drain + graceMs ∧
      (w.drain ≤ 1000 → (twoSignalRun t0 w.drain).hardCancelAt = some (t0 + 1000))) ∧
    (∀ e, w.exitingAt = some e → e < t0 + 1000 → w.drain < 1000 →
      signalThread w start = [drainedRun t0 w.drain (max (t0 + w.drain) e)] ∧
      max (t0 + w.drain) e < t0 + 1000 ∧
      (∀ t, hardDoneAt w (drainedRun t0 w.drain (max (t0 + w.drain) e)) t = false)) ∧
    (∀ e, w.exitingAt = some e → e ≤ t0 + max 1000 w.drain →
      ¬ (e < t0 + 1000 ∧ w.drain < 1000) →
      signalThread w start =
        [drainedRun t0 w.drain (t0 + max 1000 w.drain), twoSignalRun t0 w.drain,
          twoSignalRun t0 w.drain] ∧
      (∀ t, hardDoneAt w (drainedRun t0 w.drain (t0 + max 1000 w.drain)) t = false) ∧
      (∀ t, hardDoneAt w (twoSignalRun t0 w.drain) t = decide (t0 + max 1000 w.drain ≤ t))) := by
  have hu : wakeAt t0 [some (t0 + w.drain), w.hardAt] = some (t0 + w.drain) := by
    simp only [hhard, wakeAt, earliest, Option.map_some', Option.some.injEq]
    omega
  have hrem : remainingSignals [t0, t0 + 1000] t0 = [t0 + 1000] := by
    simp [remainingSignals]
  have hfirst : signalThread w start =
      sigLoop2 w 4 (t0 + w.drain) (some (t0 + w.drain + 5000)) [t0 + 1000]
        { softCancelAt := some t0, shutdownReturnAt := some (t0 + w.drain),
          graceStartAt := some (t0 + w.drain) } := by
    rw [signalThread_signal w start t0 t0 (t0 + w.drain) [t0 + 1000] hsig (by omega) hrunning
      (laterThan_earliest _ _ (forall_mem_two _ _ _ hsoft (by rw [hhard]; rfl))) hsrv hu]
    simp only [hsig, hrem, List.length_cons, List.length_nil, Nat.reduceAdd, graceMs]
  have hd : ∀ t, hardDoneAt w (twoSignalRun t0 w.drain) t =
      decide (t0 + max 1000 w.drain ≤ t) :=
    fun t => hardDoneAt_of_watcher w _ _ t hhard rfl
  have hnone : ∀ ret t, hardDoneAt w (drainedRun t0 w.drain ret) t = false := by
    intro ret t
    simp [hardDoneAt, hhard, drainedRun, earliest, isReadyAt]
  refine ⟨?_, ?_, ?_⟩
  · intro hexit
    have hrun : signalThread w start = [twoSignalRun t0 w.drain] := by
      rw [hfirst, sigLoop2_signal w 3 (t0 + w.drain) (t0 + max 1000 w.drain) (t0 + 1000) _ [] _
        (by omega) hexit (by rw [hhard]; rfl)
        (by simp only [laterThan, decide_eq_true_eq]; omega),
        sigLoop2_hardDone w 2 _ (t0 + max 1000 w.drain) (t0 + max 1000 w.drain) _ _ _
          (by rw [hhard]; rfl) (by omega) hexit
          (by simp [remainingSignals, laterThan])
          (by simp only [laterThan, decide_eq_true_eq]; omega)]
      rfl
    refine ⟨hrun, rfl, hd, ?_, ?_⟩
    · simp only [graceMs]
      omega
    · intro hle
      simp only [twoSignalRun, Option.some.injEq]
      omega
  · intro e he hlt hdr
    refine ⟨?_, by omega, hnone _⟩
    rw [hfirst, sigLoop2_exiting w 3 _ (max (t0 + w.drain) e) e _ _ _ he rfl
      (by rw [hhard]; rfl)
      (by simp only [List.head?_cons, laterThan, decide_eq_true_eq]; omega)
      (by simp only [laterThan, decide_eq_true_eq]; omega)]
    rfl
  · intro e he hle hnot
    refine ⟨?_, hnone _, hd⟩
    rw [hfirst, sigLoop2_exiting_or_signal w 3 (t0 + w.drain) (t0 + max 1000 w.drain) e
      (t0 + 1000) _ [] _ he (by omega) hle (by omega) (by rw [hhard]; rfl)
      (by simp only [laterThan, decide_eq_true_eq]; omega),
      sigLoop2_exiting_or_hardDone w 2 _ (t0 + max 1000 w.drain) e (t0 + max 1000 w.drain) _ _ _
        he (by rw [hhard]; rfl) (by omega) hle (le_refl _)
        (by simp [remainingSignals, laterThan])
        (by simp only [laterThan, decide_eq_true_eq]; omega)]
    rfl

/-- Witness for C3 (amended): signals at 1000 ms and 2000 ms. With a drain of 300 ms and
`gExiting` never closed the hard context is cancelled at 2000 ms; with a drain of 300 ms and
`gExiting` closed at 1001 ms the watcher returns at 1300 ms without cancelling; with a drain of
3000 ms and `gExiting` closed at 1001 ms the watcher returns at 4000 ms, having cancelled the
hard context then or not at all. -/
theorem second_signal_escalates_witness :
    (signalThread quickDrainWorld 0 = [twoSignalRun 1000 300] ∧
      (twoSignalRun 1000 300).hardCancelAt = some (1000 + 1000)) ∧
    signalThread quickDrainExitingWorld 0 = [drainedRun 1000 300 (max (1000 + 300) 1001)] ∧
    signalThread slowDrainExitingWorld 0 =
      [drainedRun 1000 3000 (1000 + max 1000 3000), twoSignalRun 1000 3000,
        twoSignalRun 1000 3000] :=
  have h := (second_signal_escalates quickDrainWorld 0 1000 (by decide) (by decide) (by decide)
    (by decide) (by decide) (by decide)).1 (by decide)
  ⟨⟨h.1, h.2.2.2.2 (by decide)⟩,
    ((second_signal_escalates quickDrainExitingWorld 0 1000 (by decide) (by decide) (by decide)
      (by decide) (by decide) (by decide)).2.1 1001 rfl (by decide) (by decide)).1,
    ((second_signal_escalates slowDrainExitingWorld 0 1000 (by decide) (by decide) (by decide)
      (by decide) (by decide) (by decide)).2.2 1001 rfl (by decide) (by decide)).1⟩

end GuildRoster
